import Mathlib

/-!
# A verification development for `log.c`

Shallow embedding of `src/log.c` / `src/log.h`.

* The global `static struct { ... } L` is the record `Logger`, passed explicitly.
* C pointers (`void *`, `FILE *`, `log_LockFn`) are natural numbers, `0` being `NULL`;
  `log_LogFn` values are the inductive `LogFn`.
* `int` values are `Int` (only comparisons and decimal printing are performed on them).
* A C string is the list of its characters; where the source itself looks for the
  terminator (the copy loop of `log_add_callback`) the list is scanned for NUL as well,
  and running off its end reads the terminator.
* Undefined behaviour (an array index past its end, a `NULL` stream handed to the C
  library, a read of an indeterminate buffer) and a failed `assert` are results
  `Except.error f` with `f : Fault`.
* The C library is modelled only as far as the source uses it: `fopen` / `fprintf` /
  `fflush` / `fclose` on a small file system `FS`, `strftime` and `vfprintf` as
  interpreters of the conversion specifications that occur in the source, `assert` as
  the macro of `<assert.h>`.  The value `localtime` returns during a call of `log_log`
  (it is taken at most once per call) is the argument `now`.
* The compile-time switches `LOG_USE_COLOR` and `NDEBUG` are the fields of `Build`; the
  code under `LOG_ANDROID` is not part of the embedding.
* Everything the logger does to the outside world is recorded, in order, as a list of
  `Effect`s.  Sink functions supplied by the caller are opaque: their invocation is the
  effect `Effect.call`, and they are assumed not to re-enter the logger.
-/

set_option maxRecDepth 100000

namespace LogC

/-! ## Data model -/

/-- The constant `MAX_CALLBACKS` of `log.c`. -/
def MAX_CALLBACKS : Nat := 32

/-- Size of the array `save_str` in `Callback` (`char save_str[256]`). -/
def SAVE_STR_SIZE : Nat := 256

/-- A C data pointer; `0` is `NULL`. -/
abbrev Ptr := Nat

/-- The terminating character of a C string. -/
def NUL : Char := Char.ofNat 0

/-- Values of type `log_LogFn` that can be stored in the sink table: `NULL`, the two
functions `log.c` registers itself, or a function supplied by the caller.
(`stdout_callback` is `static` and is only ever called directly by `log_log`, so it is
not among them.) -/
inductive LogFn where
  | null
  | file_callback
  | file_bypath_callback
  | user (id : Nat)
  deriving DecidableEq, Repr

/-- Who performs an output operation: `stdout_callback`, called by the console block
of `log_log`, or a function called through the sink table. -/
inductive Writer where
  | stdout_callback
  | sink (fn : LogFn)
  deriving DecidableEq, Repr

/-- A `char` array; a cell is `none` while its value is indeterminate (an automatic
variable that was never written). -/
abbrev Buf := List (Option Char)

/-- The struct `Callback` of `log.c`. -/
structure Callback where
  fn : LogFn
  udata : Ptr
  level : Int
  save_str : Buf
  deriving DecidableEq, Repr

/-- A zero-initialised `Callback` (static storage). -/
def Callback.zero : Callback :=
  { fn := .null, udata := 0, level := 0, save_str := List.replicate SAVE_STR_SIZE (some NUL) }

/-- The static struct `L` of `log.c`. -/
structure Logger where
  udata : Ptr
  lock : Ptr
  level : Int
  quiet : Bool
  callbacks : List Callback
  deriving DecidableEq, Repr

/-- The value of `L` at program start: static storage is zero-initialised. -/
def Logger.init : Logger :=
  { udata := 0, lock := 0, level := 0, quiet := false,
    callbacks := List.replicate MAX_CALLBACKS Callback.zero }

/-- The array element `L.callbacks[i]`, for `i < MAX_CALLBACKS` (the table of a
logger has `MAX_CALLBACKS` entries, so the default is not used). -/
def Logger.slot (L : Logger) (i : Nat) : Callback :=
  L.callbacks.getD i Callback.zero

/-- What can go wrong in a run of the embedded code. -/
inductive Fault where
  /-- a store or load past the end of an array -/
  | outOfBounds
  /-- a `NULL` `FILE *` handed to `fprintf`, `vfprintf`, `fflush` or `fclose` -/
  | nullStream
  /-- a pointer used at a type it does not point to, or an indeterminate string read -/
  | badPointer
  /-- a conversion specification outside the modelled ones, or a mismatched argument -/
  | badFormat
  /-- `assert` failed: the process is aborted -/
  | assertFailed
  /-- a call through a `NULL` function pointer -/
  | nullCall
  deriving DecidableEq, Repr

deriving instance DecidableEq for Except

/-! ## Registration -/

/-- The assignment `buf[index] = c` on an array of `buf.length` cells. -/
def store (buf : Buf) (index : Nat) (c : Char) : Except Fault Buf :=
  if index < buf.length then .ok (buf.set index (some c)) else .error .outOfBounds

/-- The copy loop of `log_add_callback` (lines 162-171).  The first argument is the
source string from position `index` on; running off its end reads the terminator. -/
def copy_save_str : List Char → Nat → Buf → Except Fault Buf
  | [], index, buf => store buf index NUL
  | c :: rest, index, buf =>
    if c = NUL then store buf index NUL
    else
      match store buf index c with
      | .ok buf1 => copy_save_str rest (index + 1) buf1
      | .error f => .error f

/-- The local `Callback cb` built by `log_add_callback` (lines 157-171): `save_str`
starts indeterminate and is filled only when a string is given. -/
def make_callback (fn : LogFn) (udata : Ptr) (level : Int) (save_str : Option (List Char)) :
    Except Fault Callback :=
  let fresh : Buf := List.replicate SAVE_STR_SIZE none
  match save_str with
  | none => .ok { fn := fn, udata := udata, level := level, save_str := fresh }
  | some s =>
    match copy_save_str s 0 fresh with
    | .ok buf => .ok { fn := fn, udata := udata, level := level, save_str := buf }
    | .error f => .error f

/-- The `for` loop of `log_add_callback`; the first argument counts the iterations
left (`MAX_CALLBACKS - i`). -/
def log_add_callback_loop (L : Logger) (fn : LogFn) (udata : Ptr) (level : Int)
    (save_str : Option (List Char)) : Nat → Nat → Except Fault (Logger × Int)
  | 0, _ => .ok (L, -1)
  | n + 1, i =>
    if (L.slot i).fn = .null then
      match make_callback fn udata level save_str with
      | .ok cb => .ok ({ L with callbacks := L.callbacks.set i cb }, 0)
      | .error f => .error f
    else log_add_callback_loop L fn udata level save_str n (i + 1)

/-- The function `log_add_callback(fn, udata, level, save_str)`. -/
def log_add_callback (L : Logger) (fn : LogFn) (udata : Ptr) (level : Int)
    (save_str : Option (List Char)) : Except Fault (Logger × Int) :=
  log_add_callback_loop L fn udata level save_str MAX_CALLBACKS 0

/-- The function `log_add_fp(fp, level)`. -/
def log_add_fp (L : Logger) (fp : Ptr) (level : Int) : Except Fault (Logger × Int) :=
  log_add_callback L .file_callback fp level none

/-- The function `log_set_lock`. -/
def log_set_lock (L : Logger) (fn : Ptr) (udata : Ptr) : Logger :=
  { L with lock := fn, udata := udata }

/-- The function `log_set_level`. -/
def log_set_level (L : Logger) (level : Int) : Logger :=
  { L with level := level }

/-- The function `log_set_quiet`. -/
def log_set_quiet (L : Logger) (enable : Bool) : Logger :=
  { L with quiet := enable }

/-! ## The C library, as far as `log.c` uses it -/

/-- A variadic argument. -/
inductive Arg where
  | int (i : Int)
  | str (s : List Char)
  | chr (c : Char)
  deriving DecidableEq, Repr

/-- Decimal digits of a natural number. -/
def natDec (n : Nat) : List Char := Nat.toDigits 10 n

/-- What `%d` prints for an `int`. -/
def intDec : Int → List Char
  | .ofNat n => natDec n
  | .negSucc n => '-' :: natDec (n + 1)

/-- Padding with blanks to a field width: on the right with the `-` flag, else on the
left. -/
def pad (left : Bool) (width : Nat) (s : List Char) : List Char :=
  if left then s ++ List.replicate (width - s.length) ' '
  else List.replicate (width - s.length) ' ' ++ s

/-- State of the `printf` interpreter: copying text, or inside a conversion
specification whose flag and width have been read so far. -/
inductive FmtState where
  | text
  | spec (left : Bool) (width : Nat)
  deriving DecidableEq, Repr

/-- Puts `pre` in front of a rendered rest. -/
def emit (pre : List Char) : Except Fault (List Char) → Except Fault (List Char)
  | .ok r => .ok (pre ++ r)
  | .error f => .error f

/-- The text `vfprintf` produces for a format and its arguments.  Modelled: ordinary
characters, the flag `-`, a decimal field width, and the conversions `d`, `s`, `c`
and `%`.  Anything else is `Fault.badFormat`. -/
def vformat_go : FmtState → List Char → List Arg → Except Fault (List Char)
  | .text, [], _ => .ok []
  | .text, c :: cs, args =>
    if c = '%' then vformat_go (.spec false 0) cs args
    else emit [c] (vformat_go .text cs args)
  | .spec _ _, [], _ => .error .badFormat
  | .spec left width, c :: cs, args =>
    if c = '-' then
      if left = false ∧ width = 0 then vformat_go (.spec true 0) cs args
      else .error .badFormat
    else if c.isDigit then
      if c = '0' ∧ width = 0 then .error .badFormat
      else vformat_go (.spec left (10 * width + (c.toNat - 48))) cs args
    else if c = '%' then
      if left = false ∧ width = 0 then emit ['%'] (vformat_go .text cs args)
      else .error .badFormat
    else if c = 'd' then
      match args with
      | .int i :: rest => emit (pad left width (intDec i)) (vformat_go .text cs rest)
      | _ => .error .badFormat
    else if c = 's' then
      match args with
      | .str s :: rest => emit (pad left width s) (vformat_go .text cs rest)
      | _ => .error .badFormat
    else if c = 'c' then
      match args with
      | .chr x :: rest => emit (pad left width [x]) (vformat_go .text cs rest)
      | _ => .error .badFormat
    else .error .badFormat

/-- The text written by `vfprintf(_, fmt, ap)`. -/
def vformat (fmt : List Char) (ap : List Arg) : Except Fault (List Char) :=
  vformat_go .text fmt ap

/-- The fields of `struct tm` that the source prints; `tm_year` counts from 1900 and
`tm_mon` from 0, as in C. -/
structure Tm where
  tm_sec : Nat
  tm_min : Nat
  tm_hour : Nat
  tm_mday : Nat
  tm_mon : Nat
  tm_year : Nat
  deriving DecidableEq, Repr

/-- The ranges `localtime` produces, for a year of four digits. -/
def Tm.Valid (t : Tm) : Prop :=
  t.tm_sec ≤ 60 ∧ t.tm_min ≤ 59 ∧ t.tm_hour ≤ 23 ∧ 1 ≤ t.tm_mday ∧ t.tm_mday ≤ 31 ∧
    t.tm_mon ≤ 11 ∧ 1000 ≤ t.tm_year + 1900 ∧ t.tm_year + 1900 ≤ 9999

instance (t : Tm) : Decidable t.Valid := by
  unfold Tm.Valid; infer_instance

/-- A number printed in at least two digits, zero filled (`%H`, `%M`, `%S`, `%m`,
`%d` of `strftime`). -/
def zpad2 (n : Nat) : List Char :=
  if n < 10 then '0' :: natDec n else natDec n

/-- One conversion of `strftime`. -/
def strftime_conv (c : Char) (t : Tm) : Except Fault (List Char) :=
  if c = 'H' then .ok (zpad2 t.tm_hour)
  else if c = 'M' then .ok (zpad2 t.tm_min)
  else if c = 'S' then .ok (zpad2 t.tm_sec)
  else if c = 'Y' then .ok (natDec (t.tm_year + 1900))
  else if c = 'm' then .ok (zpad2 (t.tm_mon + 1))
  else if c = 'd' then .ok (zpad2 t.tm_mday)
  else .error .badFormat

/-- The text `strftime` renders for a format.  Modelled: ordinary characters and the
conversions `%H %M %S %Y %m %d`. -/
def strftime_go : List Char → Tm → Except Fault (List Char)
  | [], _ => .ok []
  | [c], _ => if c = '%' then .error .badFormat else .ok [c]
  | c :: d :: cs, t =>
    if c = '%' then
      match strftime_conv d t with
      | .ok r => emit r (strftime_go cs t)
      | .error f => .error f
    else emit [c] (strftime_go (d :: cs) t)

/-- The C string left in `buf` by `buf[strftime(buf, max, fmt, tm)] = 0`: the rendered
text when it fits together with its terminator, and the empty string otherwise
(`strftime` then returns 0). -/
def strftime_buf (max : Nat) (fmt : List Char) (t : Tm) : Except Fault (List Char) :=
  match strftime_go fmt t with
  | .ok r => if r.length + 1 ≤ max then .ok r else .ok []
  | .error f => .error f

/-- A file system: the paths on which `fopen` fails, and the contents of the files
that exist. -/
structure FS where
  denied : List (List Char)
  files : List (List Char × List Char)
  deriving DecidableEq, Repr

/-- Contents of the file at `path`, if it exists. -/
def FS.read (fs : FS) (path : List Char) : Option (List Char) :=
  (fs.files.find? (fun e => e.1 = path)).map (fun e => e.2)

/-- The file system with the file at `path` holding `content`. -/
def FS.put (fs : FS) (path : List Char) (content : List Char) : FS :=
  { fs with files := (path, content) :: fs.files.filter (fun e => e.1 ≠ path) }

/-- A `FILE *`: `NULL`, a stream owned by the caller (or `stderr`), or a stream this
library opened on a path. -/
inductive FilePtr where
  | null
  | handle (p : Ptr)
  | opened (path : List Char)
  deriving DecidableEq, Repr

/-- The address of the C library object `stderr`: a fixed pointer that is not `NULL`. -/
def stderr : Ptr := 2

/-- The two modes `log.c` opens files in. -/
inductive Mode where
  /-- `"w+"`: create or truncate -/
  | w_plus
  /-- `"a+"`: create if missing, write at the end -/
  | a_plus
  deriving DecidableEq, Repr

/-- The call `fopen(path, mode)`. -/
def fopen (fs : FS) (path : List Char) (mode : Mode) : FilePtr × FS :=
  if path ∈ fs.denied then (.null, fs)
  else
    match mode with
    | .w_plus => (.opened path, fs.put path [])
    | .a_plus =>
      match fs.read path with
      | some _ => (.opened path, fs)
      | none => (.opened path, fs.put path [])

/-- What a log call's opaque target (`ev->udata`, a `void *`) is: a pointer given by
the caller (or `stderr`), or the address of the stored string of a slot, carried with
the contents of that array. -/
inductive Target where
  | ptr (p : Ptr)
  | save_str (slot : Nat) (buf : Buf)
  deriving DecidableEq, Repr

/-- The struct `log_Event` of `log.h`. -/
structure log_Event where
  ap : List Arg
  fmt : List Char
  file : List Char
  time : Option Tm
  udata : Target
  line : Int
  level : Int
  deriving DecidableEq, Repr

/-- What a run does to the outside world. -/
inductive Effect where
  /-- the call `L.lock(flag, udata)` through the installed hook `fn` -/
  | lock (fn : Ptr) (flag : Bool) (udata : Ptr)
  /-- the call `cb->fn(&ev)` for the sink in `slot` -/
  | call (slot : Nat) (fn : LogFn) (ev : log_Event)
  /-- `text` written to stream `f` by the function `writer` -/
  | write (writer : Writer) (f : FilePtr) (text : List Char)
  /-- `fflush(f)` by `writer` -/
  | flush (writer : Writer) (f : FilePtr)
  /-- `fclose(f)` by `writer` -/
  | close (writer : Writer) (f : FilePtr)
  deriving DecidableEq, Repr

/-- A step of a run: from a file system to the effects performed and the file system
afterwards, or a fault. -/
abbrev Run := FS → Except Fault (List Effect × FS)

/-- One step after another. -/
def Run.seq (r k : Run) : Run := fun fs =>
  match r fs with
  | .error f => .error f
  | .ok (es, fs1) =>
    match k fs1 with
    | .error f => .error f
    | .ok (es2, fs2) => .ok (es ++ es2, fs2)

/-- A step that only performs the effects `es`. -/
def Run.emit (es : List Effect) : Run := fun fs => .ok (es, fs)

/-- The text `text` reaching the stream `f`: recorded as an effect and, for a stream
opened on a path, appended to that file. -/
def put_text (writer : Writer) (f : FilePtr) (text : List Char) : Run := fun fs =>
  match f with
  | .null => .error .nullStream
  | .handle p => .ok ([.write writer (.handle p) text], fs)
  | .opened path =>
    .ok ([.write writer (.opened path) text], fs.put path ((fs.read path).getD [] ++ text))

/-- The calls `fprintf(f, fmt, ...)` and `vfprintf(f, fmt, ap)`. -/
def fprintf (writer : Writer) (f : FilePtr) (fmt : List Char) (args : List Arg) : Run := fun fs =>
  match f with
  | .null => .error .nullStream
  | _ =>
    match vformat fmt args with
    | .ok text => put_text writer f text fs
    | .error e => .error e

/-- The call `fflush(f)`; `fflush(NULL)` is defined in C (it flushes every stream). -/
def fflush (writer : Writer) (f : FilePtr) : Run :=
  Run.emit [.flush writer f]

/-- The call `fclose(f)`. -/
def fclose (writer : Writer) (f : FilePtr) : Run := fun fs =>
  match f with
  | .null => .error .nullStream
  | _ => .ok ([.close writer f], fs)

/-- Reading a C string out of a `char` array: the characters before the first NUL. -/
def read_str : Buf → Except Fault (List Char)
  | [] => .error .outOfBounds
  | none :: _ => .error .badPointer
  | some c :: rest =>
    if c = NUL then .ok []
    else
      match read_str rest with
      | .ok s => .ok (c :: s)
      | .error f => .error f

/-- A target used as a `FILE *`. -/
def Target.toFile : Target → Except Fault FilePtr
  | .ptr p => if p = 0 then .ok .null else .ok (.handle p)
  | .save_str _ _ => .error .badPointer

/-- A target used as a `const char *`. -/
def Target.toStr : Target → Except Fault (List Char)
  | .ptr _ => .error .badPointer
  | .save_str _ buf => read_str buf

/-! ## Level names -/

/-- The array `level_strings`. -/
def level_strings : List (List Char) :=
  ["TRACE".toList, "DEBUG".toList, "INFO".toList, "WARN".toList, "ERROR".toList,
    "FATAL".toList]

/-- The array `level_colors` (under `LOG_USE_COLOR`). -/
def level_colors : List (List Char) :=
  ["\x1b[94;1m".toList, "\x1b[36;1m".toList, "\x1b[32;1m".toList, "\x1b[33;1m".toList,
    "\x1b[31;1m".toList, "\x1b[35;1m".toList]

/-- Indexing one of the six-element arrays with an `int`. -/
def index6 (a : List (List Char)) (level : Int) : Except Fault (List Char) :=
  if 0 ≤ level ∧ level < 6 then .ok (a.getD level.toNat []) else .error .outOfBounds

/-- The function `log_level_string(level)`. -/
def log_level_string (level : Int) : Except Fault (List Char) :=
  index6 level_strings level

/-! ## The sink functions of `log.c` -/

/-- Compile-time switches. -/
structure Build where
  LOG_USE_COLOR : Bool
  NDEBUG : Bool
  deriving DecidableEq, Repr

/-- The format of the first `fprintf` of `stdout_callback`. -/
def stdout_format (b : Build) : List Char :=
  if b.LOG_USE_COLOR then "%s %s%-5s\x1b[0m \x1b[90m%s:%d:\x1b[0m ".toList
  else "%s %-5s %s:%d: ".toList

/-- The arguments of the first `fprintf` of `stdout_callback`. -/
def stdout_args (b : Build) (buf : List Char) (ev : log_Event) : Except Fault (List Arg) :=
  match index6 level_strings ev.level with
  | .error f => .error f
  | .ok name =>
    if b.LOG_USE_COLOR then
      match index6 level_colors ev.level with
      | .error f => .error f
      | .ok color => .ok [.str buf, .str color, .str name, .str ev.file, .int ev.line]
    else .ok [.str buf, .str name, .str ev.file, .int ev.line]

/-- The body shared by the three sink functions once the time stamp is rendered and
the stream is known: prefix, message, newline, flush. -/
def write_line (writer : Writer) (f : FilePtr) (fmt : List Char) (args : List Arg)
    (ev : log_Event) : Run :=
  ((fprintf writer f fmt args).seq (fprintf writer f ev.fmt ev.ap)).seq
    ((fprintf writer f "\n".toList []).seq (fflush writer f))

/-- The function `stdout_callback`. -/
def stdout_callback (b : Build) (ev : log_Event) : Run := fun fs =>
  match ev.time with
  | none => .error .badPointer
  | some tm =>
    match strftime_buf 16 "%H:%M:%S".toList tm with
    | .error f => .error f
    | .ok buf =>
      match stdout_args b buf ev, ev.udata.toFile with
      | .ok args, .ok f => write_line .stdout_callback f (stdout_format b) args ev fs
      | .error e, _ => .error e
      | _, .error e => .error e

/-- The function `file_callback`. -/
def file_callback (ev : log_Event) : Run := fun fs =>
  match ev.time with
  | none => .error .badPointer
  | some tm =>
    match strftime_buf 64 "%Y-%m-%d %H:%M:%S".toList tm with
    | .error f => .error f
    | .ok buf =>
      match index6 level_strings ev.level, ev.udata.toFile with
      | .ok name, .ok f =>
        write_line (.sink .file_callback) f "%s %-5s %s:%d: ".toList
          [.str buf, .str name, .str ev.file, .int ev.line] ev fs
      | .error e, _ => .error e
      | _, .error e => .error e

/-- The function `file_bypath_callback`: the result of `fopen` is used unchecked. -/
def file_bypath_callback (ev : log_Event) : Run := fun fs =>
  match ev.udata.toStr with
  | .error e => .error e
  | .ok path =>
    let (f, fs1) := fopen fs path .a_plus
    match ev.time with
    | none => .error .badPointer
    | some tm =>
      match strftime_buf 64 "%Y-%m-%d %H:%M:%S".toList tm with
      | .error e => .error e
      | .ok buf =>
        match index6 level_strings ev.level with
        | .error e => .error e
        | .ok name =>
          ((write_line (.sink .file_bypath_callback) f "%s %-5s %s:%d: ".toList
            [.str buf, .str name, .str ev.file, .int ev.line] ev).seq
            (fclose (.sink .file_bypath_callback) f)) fs1

/-- The call `fn(&ev)` through a function pointer.  A function supplied by the caller
is opaque: the call itself is the recorded effect. -/
def call_fn (fn : LogFn) (ev : log_Event) : Run :=
  match fn with
  | .null => fun _ => .error .nullCall
  | .file_callback => file_callback ev
  | .file_bypath_callback => file_bypath_callback ev
  | .user _ => Run.emit []

/-! ## Logging -/

/-- The function `lock`. -/
def lock (L : Logger) : List Effect :=
  if L.lock ≠ 0 then [.lock L.lock true L.udata] else []

/-- The function `unlock`. -/
def unlock (L : Logger) : List Effect :=
  if L.lock ≠ 0 then [.lock L.lock false L.udata] else []

/-- The function `init_event(ev, cb)` with `cb = &L.callbacks[slot]`; `now` is what
`localtime` returns when the time is captured. -/
def init_event (ev : log_Event) (cb : Callback) (slot : Nat) (now : Tm) : log_Event :=
  let ev1 := if ev.time = none then { ev with time := some now } else ev
  if cb.udata ≠ 0 then { ev1 with udata := .ptr cb.udata }
  else { ev1 with udata := .save_str slot cb.save_str }

/-- The `for` loop of `log_log` (lines 236-244); the first argument counts the
iterations left (`MAX_CALLBACKS - i`). -/
def log_log_loop (L : Logger) (level : Int) (args : List Arg) (now : Tm) :
    Nat → Nat → log_Event → Run
  | 0, _, _ => Run.emit []
  | n + 1, i, ev =>
    let cb := L.slot i
    if cb.fn = .null then Run.emit []
    else if level ≥ cb.level then
      let ev1 := { init_event ev cb i now with ap := args }
      (Run.emit [.call i cb.fn ev1]).seq
        ((call_fn cb.fn ev1).seq (log_log_loop L level args now n (i + 1) ev1))
    else log_log_loop L level args now n (i + 1) ev

/-- The console block of `log_log` (lines 227-234); returns the event as it is
afterwards. -/
def log_log_console (b : Build) (L : Logger) (level : Int) (args : List Arg) (now : Tm)
    (ev : log_Event) : log_Event × Run :=
  if L.quiet = false ∧ level ≥ L.level then
    let ev1 := { ev with time := some now, udata := .ptr stderr, ap := args }
    (ev1, stdout_callback b ev1)
  else (ev, Run.emit [])

/-- The function `log_log(level, file, line, fmt, ...)`; `args` are the variadic
arguments and `now` is the local time at the call. -/
def log_log (b : Build) (L : Logger) (level : Int) (file : List Char) (line : Int)
    (fmt : List Char) (args : List Arg) (now : Tm) : Run :=
  let ev : log_Event :=
    { ap := [], fmt := fmt, file := file, time := none, udata := .ptr 0, line := line,
      level := level }
  let con := log_log_console b L level args now ev
  ((Run.emit (lock L)).seq con.2).seq
    ((log_log_loop L level args now MAX_CALLBACKS 0 con.1).seq (Run.emit (unlock L)))

/-- The function `log_add_filePath(path, level, create_file)`. -/
def log_add_filePath (b : Build) (L : Logger) (path : List Char) (level : Int)
    (create_file : Bool) (fs : FS) : Except Fault (Logger × Bool × FS) :=
  let created : Except Fault (Bool × FS) :=
    if create_file then
      let (f, fs1) := fopen fs path .w_plus
      let OK := decide (f ≠ .null)
      if b.NDEBUG = false ∧ f = .null then .error .assertFailed
      else if f = .null then .error .nullStream
      else .ok (OK, fs1)
    else .ok (true, fs)
  match created with
  | .error e => .error e
  | .ok (OK, fs1) =>
    if OK then
      match log_add_callback L .file_bypath_callback 0 level (some path) with
      | .error e => .error e
      | .ok (L1, rc) => .ok (L1, decide (rc = 0), fs1)
    else .ok (L, false, fs1)

/-! ## Vocabulary of the statements -/

/-- The C string an argument of type `char *` denotes: the characters before the
first NUL. -/
def c_str (s : List Char) : List Char := s.takeWhile (fun c => c ≠ NUL)

/-- The function `strlen` of the C library. -/
def strlen (s : List Char) : Nat := (c_str s).length

/-- The names of the enumeration in `log.h`. -/
def LOG_TRACE : Int := 0

/-- Enumerator `LOG_DEBUG`. -/
def LOG_DEBUG : Int := 1

/-- Enumerator `LOG_INFO`. -/
def LOG_INFO : Int := 2

/-- Enumerator `LOG_WARN`. -/
def LOG_WARN : Int := 3

/-- Enumerator `LOG_ERROR`. -/
def LOG_ERROR : Int := 4

/-- Enumerator `LOG_FATAL`. -/
def LOG_FATAL : Int := 5

/-- Slot `i` of the sink table holds a registration. -/
def Logger.occupied (L : Logger) (i : Nat) : Prop := (L.slot i).fn ≠ .null

instance (L : Logger) (i : Nat) : Decidable (L.occupied i) := by
  unfold Logger.occupied; infer_instance

/-- The table has its `MAX_CALLBACKS` slots. -/
def Logger.WellSized (L : Logger) : Prop := L.callbacks.length = MAX_CALLBACKS

instance (L : Logger) : Decidable L.WellSized := by
  unfold Logger.WellSized; infer_instance

/-- The occupied slots are a contiguous run at the front of the table: no free slot
lies before an occupied one. -/
def Logger.ContiguousFront (L : Logger) : Prop :=
  ∀ i, i < MAX_CALLBACKS → ∀ j, j < i → L.occupied i → L.occupied j

/-- No slot of the table holds a registration. -/
def Logger.EmptyTable (L : Logger) : Prop :=
  ∀ i, i < MAX_CALLBACKS → ¬ L.occupied i

/-- The arguments of one call of `log_add_callback`. -/
structure Registration where
  fn : LogFn
  udata : Ptr
  level : Int
  save_str : Option (List Char)
  deriving DecidableEq, Repr

/-- The stored string of a registration fits its array: there is none, or it has at
most 255 characters before its terminator. -/
def Registration.Fits (r : Registration) : Prop :=
  ∀ s, r.save_str = some s → strlen s < SAVE_STR_SIZE

/-- A sequence of calls of `log_add_callback`, one after the other; the result is the
final logger and the values the calls returned. -/
def register_all : Logger → List Registration → Except Fault (Logger × List Int)
  | L, [] => .ok (L, [])
  | L, r :: rs =>
    match log_add_callback L r.fn r.udata r.level r.save_str with
    | .error f => .error f
    | .ok (L1, rc) =>
      match register_all L1 rs with
      | .error f => .error f
      | .ok (L2, rcs) => .ok (L2, rc :: rcs)

/-- A call of one of the configuration functions of `log.h`. -/
inductive Op where
  | set_lock (fn : Ptr) (udata : Ptr)
  | set_level (level : Int)
  | set_quiet (enable : Bool)
  | add_callback (r : Registration)
  deriving DecidableEq, Repr

/-- A sequence of configuration calls, one after the other.  (`log_add_fp` and
`log_add_filePath` change the logger only through `log_add_callback`.) -/
def apply_ops : Logger → List Op → Except Fault Logger
  | L, [] => .ok L
  | L, .set_lock fn udata :: ops => apply_ops (log_set_lock L fn udata) ops
  | L, .set_level level :: ops => apply_ops (log_set_level L level) ops
  | L, .set_quiet enable :: ops => apply_ops (log_set_quiet L enable) ops
  | L, .add_callback r :: ops =>
    match log_add_callback L r.fn r.udata r.level r.save_str with
    | .error f => .error f
    | .ok (L1, _) => apply_ops L1 ops

/-- The slots whose sink was invoked, in the order of the invocations. -/
def called_slots : List Effect → List Nat
  | [] => []
  | .call i _ _ :: es => i :: called_slots es
  | _ :: es => called_slots es

/-- The text written by the function `writer`, in the order written. -/
def written_by (writer : Writer) : List Effect → List Char
  | [] => []
  | .write w _ text :: es =>
    if w = writer then text ++ written_by writer es else written_by writer es
  | _ :: es => written_by writer es

/-- The effect is a call of the lock hook. -/
def Effect.isLock : Effect → Bool
  | .lock _ _ _ => true
  | _ => false

/-- The effect is an output operation of `stdout_callback`. -/
def Effect.byConsole : Effect → Bool
  | .write .stdout_callback _ _ => true
  | .flush .stdout_callback _ => true
  | .close .stdout_callback _ => true
  | _ => false

/-- The effect is the invocation of a sink. -/
def Effect.isCall : Effect → Bool
  | .call _ _ _ => true
  | _ => false

/-- The effect is an output operation of a function called through the sink table. -/
def Effect.bySink : Effect → Bool
  | .write (.sink _) _ _ => true
  | .flush (.sink _) _ => true
  | .close (.sink _) _ => true
  | _ => false

/-- The opaque target `init_event` hands to the sink of slot `i`: the payload when it
is not `NULL`, else the address of the stored string of the slot. -/
def Logger.target (L : Logger) (i : Nat) : Target :=
  if (L.slot i).udata ≠ 0 then .ptr (L.slot i).udata else .save_str i (L.slot i).save_str

/-- The sink in `cb` can run on the file system `fs`: a function of the caller, the
stream sink with a stream that is not `NULL`, or the path sink with a stored path that
can be opened. -/
def sink_ready (cb : Callback) (fs : FS) : Prop :=
  match cb.fn with
  | .null => False
  | .user _ => True
  | .file_callback => cb.udata ≠ 0
  | .file_bypath_callback =>
    cb.udata = 0 ∧ ∃ path, read_str cb.save_str = .ok path ∧ path ∉ fs.denied

/-- The slots the loop of `log_log` reaches before it stops (line 236: it stops at
`MAX_CALLBACKS` or at the first slot whose `fn` is `NULL`). -/
def log_log_visited (L : Logger) : Nat → Nat → List Nat
  | 0, _ => []
  | n + 1, i => if (L.slot i).fn = .null then [] else i :: log_log_visited L n (i + 1)

/-- The slots that hold a registration whose threshold an event of `level` meets, in
slot order. -/
def due_slots (L : Logger) (level : Int) : List Nat :=
  (List.range MAX_CALLBACKS).filter (fun i => decide (L.occupied i ∧ (L.slot i).level ≤ level))

/-! ## The line layouts of the specification -/

/-- A number below 100 in exactly two decimal digits. -/
def two_digits (n : Nat) : List Char :=
  [Nat.digitChar (n / 10), Nat.digitChar (n % 10)]

/-- A number below 10000 in exactly four decimal digits. -/
def four_digits (n : Nat) : List Char :=
  [Nat.digitChar (n / 1000), Nat.digitChar (n / 100 % 10), Nat.digitChar (n / 10 % 10),
    Nat.digitChar (n % 10)]

/-- The time stamp `HH:MM:SS`. -/
def layout_time (t : Tm) : List Char :=
  two_digits t.tm_hour ++ ':' :: two_digits t.tm_min ++ ':' :: two_digits t.tm_sec

/-- The time stamp `YYYY-MM-DD HH:MM:SS`. -/
def layout_date_time (t : Tm) : List Char :=
  four_digits (t.tm_year + 1900) ++ '-' :: two_digits (t.tm_mon + 1) ++
    '-' :: two_digits t.tm_mday ++ ' ' :: layout_time t

/-- A level name left-justified in five columns. -/
def layout_level (name : List Char) : List Char :=
  name ++ List.replicate (5 - name.length) ' '

/-- The layout `STAMP LEVEL file:line: message` followed by a newline. -/
def layout_line (stamp name file : List Char) (line : Int) (msg : List Char) : List Char :=
  stamp ++ ' ' :: layout_level name ++ ' ' :: file ++ ':' :: intDec line ++
    ':' :: ' ' :: msg ++ ['\n']

/-! ## Sample data for the concrete statements -/

/-- The build without `LOG_USE_COLOR` and without `NDEBUG`. -/
def plain_build : Build := { LOG_USE_COLOR := false, NDEBUG := false }

/-- The local time 2024-03-05 07:08:09. -/
def sample_time : Tm :=
  { tm_sec := 9, tm_min := 8, tm_hour := 7, tm_mday := 5, tm_mon := 2, tm_year := 124 }

/-- A file system in which nothing below `/no/dir` can be opened, and no file exists. -/
def sample_fs : FS := { denied := ["/no/dir/app.log".toList], files := [] }

/-- A sink of the caller at `LOG_INFO` with the payload pointer 40. -/
def sample_sink_info : Callback :=
  { fn := .user 1, udata := 40, level := LOG_INFO,
    save_str := List.replicate SAVE_STR_SIZE none }

/-- A sink of the caller at `LOG_ERROR` with the payload pointer 44. -/
def sample_sink_error : Callback :=
  { fn := .user 2, udata := 44, level := LOG_ERROR,
    save_str := List.replicate SAVE_STR_SIZE none }

/-- A logger with the lock hook 7 (state 9), minimum level `LOG_DEBUG`, and the two
sample sinks in slots 0 and 1. -/
def sample_logger : Logger :=
  { udata := 9, lock := 7, level := LOG_DEBUG, quiet := false,
    callbacks := (Logger.init.callbacks.set 0 sample_sink_info).set 1 sample_sink_error }

/-- The event the sample call `log_log(LOG_WARN, "x.c", 11, "n=%d", 5)` hands on, with
the given target. -/
def sample_event (udata : Target) : log_Event :=
  { ap := [.int 5], fmt := "n=%d".toList, file := "x.c".toList, time := some sample_time,
    udata := udata, line := 11, level := LOG_WARN }

/-- The effects of the sample call on the sample logger. -/
def sample_trace : List Effect :=
  [.lock 7 true 9,
    .write .stdout_callback (.handle stderr) "07:08:09 WARN  x.c:11: ".toList,
    .write .stdout_callback (.handle stderr) "n=5".toList,
    .write .stdout_callback (.handle stderr) "\n".toList,
    .flush .stdout_callback (.handle stderr),
    .call 0 (.user 1) (sample_event (.ptr 40)),
    .lock 7 false 9]

/-- A registration of a sink of the caller at `LOG_INFO` with payload 40 and no
string. -/
def sample_registration : Registration :=
  { fn := .user 1, udata := 40, level := LOG_INFO, save_str := none }

/-- A registration without payload whose stored string is `app`. -/
def sample_named_registration : Registration :=
  { fn := .user 3, udata := 0, level := LOG_WARN, save_str := some "app".toList }

/-- The slot the sample registration with a stored string fills. -/
def sample_named_sink : Callback :=
  { fn := .user 3, udata := 0, level := LOG_WARN,
    save_str := [some 'a', some 'p', some 'p', some NUL] ++ List.replicate 252 none }

/-- The initial logger after the sample registration with a stored string. -/
def sample_named_logger : Logger :=
  { Logger.init with callbacks := Logger.init.callbacks.set 0 sample_named_sink }

/-- The effects of the sample call on `sample_named_logger`. -/
def sample_named_trace : List Effect :=
  [.write .stdout_callback (.handle stderr) "07:08:09 WARN  x.c:11: ".toList,
    .write .stdout_callback (.handle stderr) "n=5".toList,
    .write .stdout_callback (.handle stderr) "\n".toList,
    .flush .stdout_callback (.handle stderr),
    .call 0 (.user 3) (sample_event (.save_str 0 sample_named_sink.save_str))]

/-- The slot `log_add_fp(fp, LOG_INFO)` fills for the stream pointer 40. -/
def sample_stream_sink : Callback :=
  { fn := .file_callback, udata := 40, level := LOG_INFO,
    save_str := List.replicate SAVE_STR_SIZE none }

/-- The initial logger after `log_add_fp(fp, LOG_INFO)` for the stream pointer 40. -/
def sample_stream_logger : Logger :=
  { Logger.init with callbacks := Logger.init.callbacks.set 0 sample_stream_sink }

/-- The effects of the sample call on `sample_stream_logger` with quiet on. -/
def sample_stream_trace : List Effect :=
  [.call 0 .file_callback (sample_event (.ptr 40)),
    .write (.sink .file_callback) (.handle 40) "2024-03-05 07:08:09 WARN  x.c:11: ".toList,
    .write (.sink .file_callback) (.handle 40) "n=5".toList,
    .write (.sink .file_callback) (.handle 40) "\n".toList,
    .flush (.sink .file_callback) (.handle 40)]

/-- The slot `log_add_filePath("/no/dir/app.log", LOG_INFO, false)` fills. -/
def sample_path_sink : Callback :=
  { fn := .file_bypath_callback, udata := 0, level := LOG_INFO,
    save_str := "/no/dir/app.log".toList.map some ++ [some NUL] ++ List.replicate 240 none }

/-- A logger with the lock hook 7: the path sink on `/no/dir/app.log` in slot 0 and a
sink of the caller in slot 1. -/
def sample_path_logger : Logger :=
  { udata := 9, lock := 7, level := LOG_TRACE, quiet := false,
    callbacks := (Logger.init.callbacks.set 0 sample_path_sink).set 1 sample_sink_info }

/-- The slot `log_add_filePath("/tmp/app.log", LOG_INFO, _)` fills. -/
def sample_tmp_sink : Callback :=
  { fn := .file_bypath_callback, udata := 0, level := LOG_INFO,
    save_str := "/tmp/app.log".toList.map some ++ [some NUL] ++ List.replicate 243 none }

/-! ## Registration: the copy of the stored string -/

theorem store_ok {buf : Buf} {index : Nat} (c : Char) (h : index < buf.length) :
    store buf index c = .ok (buf.set index (some c)) := by
  simp [store, h]

theorem store_error {buf : Buf} {index : Nat} (c : Char) (h : buf.length ≤ index) :
    store buf index c = .error .outOfBounds := by
  simp [store, Nat.not_lt.mpr h]

theorem c_str_nil : c_str [] = [] := rfl

theorem c_str_cons_nul (rest : List Char) : c_str (NUL :: rest) = [] := by
  simp [c_str]

theorem c_str_cons {c : Char} (rest : List Char) (h : c ≠ NUL) :
    c_str (c :: rest) = c :: c_str rest := by
  simp [c_str, h]

theorem strlen_cons {c : Char} (rest : List Char) (h : c ≠ NUL) :
    strlen (c :: rest) = strlen rest + 1 := by
  simp [strlen, c_str_cons rest h]

theorem read_str_drop_set_nul (buf : Buf) (index : Nat) (h : index < buf.length) :
    read_str ((buf.set index (some NUL)).drop index) = .ok [] := by
  have hlt : index < (buf.set index (some NUL)).length := by simpa using h
  rw [List.drop_eq_getElem_cons hlt]
  simp [read_str]

/-- The copy loop succeeds when the string and its terminator fit: it leaves the
cells before `index` alone, and the array then holds the string from `index` on. -/
theorem copy_save_str_fits (s : List Char) :
    ∀ (index : Nat) (buf : Buf), index + strlen s < buf.length →
      ∃ out, copy_save_str s index buf = .ok out ∧ out.length = buf.length ∧
        (∀ j, j < index → out[j]? = buf[j]?) ∧
        read_str (out.drop index) = .ok (c_str s) := by
  induction s with
  | nil =>
    intro index buf h
    have hi : index < buf.length := by omega
    refine ⟨buf.set index (some NUL), ?_, by simp, ?_, ?_⟩
    · simp [copy_save_str, store_ok NUL hi]
    · intro j hj
      exact List.getElem?_set_ne (by omega)
    · simpa [c_str_nil] using read_str_drop_set_nul buf index hi
  | cons c rest ih =>
    intro index buf h
    by_cases hc : c = NUL
    · subst hc
      have hi : index < buf.length := by omega
      refine ⟨buf.set index (some NUL), ?_, by simp, ?_, ?_⟩
      · simp [copy_save_str, store_ok NUL hi]
      · intro j hj
        exact List.getElem?_set_ne (by omega)
      · simpa [c_str_cons_nul] using read_str_drop_set_nul buf index hi
    · rw [strlen_cons rest hc] at h
      have hi : index < buf.length := by omega
      obtain ⟨out, hout, hlen, hkeep, hread⟩ :=
        ih (index + 1) (buf.set index (some c)) (by simpa using (by omega : index + 1 + strlen rest < buf.length))
      refine ⟨out, ?_, by simpa using hlen, ?_, ?_⟩
      · simp [copy_save_str, hc, store_ok c hi, hout]
      · intro j hj
        rw [hkeep j (by omega)]
        exact List.getElem?_set_ne (by omega)
      · have hat : out[index]? = some (some c) := by
          rw [hkeep index (by omega)]
          simp [List.getElem?_set, hi]
        have hlt : index < out.length := by
          rw [hlen]; simpa using hi
        have hget : out[index] = some c := by
          have := List.getElem?_eq_getElem hlt
          rw [this] at hat
          exact Option.some.inj hat
        rw [List.drop_eq_getElem_cons hlt, hget]
        simp [read_str, hc, hread, c_str_cons rest hc]

/-- The copy loop stores past the end of the array when the string and its terminator
do not fit. -/
theorem copy_save_str_overflow (s : List Char) :
    ∀ (index : Nat) (buf : Buf), buf.length ≤ index + strlen s →
      copy_save_str s index buf = .error .outOfBounds := by
  induction s with
  | nil =>
    intro index buf h
    have : buf.length ≤ index := by simpa [strlen, c_str_nil] using h
    simp [copy_save_str, store_error NUL this]
  | cons c rest ih =>
    intro index buf h
    by_cases hc : c = NUL
    · subst hc
      have : buf.length ≤ index := by simpa [strlen, c_str_cons_nul] using h
      simp [copy_save_str, store_error NUL this]
    · rw [strlen_cons rest hc] at h
      by_cases hi : index < buf.length
      · have := ih (index + 1) (buf.set index (some c)) (by simp; omega)
        simp [copy_save_str, hc, store_ok c hi, this]
      · simp [copy_save_str, hc, store_error c (Nat.le_of_not_lt hi)]

theorem make_callback_none (fn : LogFn) (udata : Ptr) (level : Int) :
    make_callback fn udata level none =
      .ok { fn := fn, udata := udata, level := level,
            save_str := List.replicate SAVE_STR_SIZE none } := rfl

theorem make_callback_fits (fn : LogFn) (udata : Ptr) (level : Int) (s : List Char)
    (h : strlen s < SAVE_STR_SIZE) :
    ∃ buf, make_callback fn udata level (some s) =
        .ok { fn := fn, udata := udata, level := level, save_str := buf } ∧
      read_str buf = .ok (c_str s) := by
  obtain ⟨out, hout, -, -, hread⟩ :=
    copy_save_str_fits s 0 (List.replicate SAVE_STR_SIZE none) (by simpa using h)
  exact ⟨out, by simp [make_callback, hout], by simpa using hread⟩

theorem make_callback_overflow (fn : LogFn) (udata : Ptr) (level : Int) (s : List Char)
    (h : SAVE_STR_SIZE ≤ strlen s) :
    make_callback fn udata level (some s) = .error .outOfBounds := by
  have := copy_save_str_overflow s 0 (List.replicate SAVE_STR_SIZE none) (by simpa using h)
  simp [make_callback, this]

/-- Whatever `make_callback` builds carries the given function, pointer and level. -/
theorem make_callback_fields {fn : LogFn} {udata : Ptr} {level : Int}
    {name : Option (List Char)} {cb : Callback}
    (h : make_callback fn udata level name = .ok cb) :
    cb.fn = fn ∧ cb.udata = udata ∧ cb.level = level := by
  cases name with
  | none =>
    rw [make_callback_none] at h
    cases h
    exact ⟨rfl, rfl, rfl⟩
  | some s =>
    unfold make_callback at h
    simp only at h
    split at h
    · cases h
      exact ⟨rfl, rfl, rfl⟩
    · cases h

theorem make_callback_ok_of_fits (fn : LogFn) (udata : Ptr) (level : Int)
    (name : Option (List Char)) (h : ∀ s, name = some s → strlen s < SAVE_STR_SIZE) :
    ∃ cb, make_callback fn udata level name = .ok cb := by
  cases name with
  | none => exact ⟨_, make_callback_none fn udata level⟩
  | some s =>
    obtain ⟨buf, hb, -⟩ := make_callback_fits fn udata level s (h s rfl)
    exact ⟨_, hb⟩

/-! ## Registration: the scan for a free slot -/

theorem slot_set_self (L : Logger) (i : Nat) (cb : Callback) (h : i < L.callbacks.length) :
    ({ L with callbacks := L.callbacks.set i cb } : Logger).slot i = cb := by
  simp [Logger.slot, List.getElem?_set, h]

theorem slot_set_ne (L : Logger) (i j : Nat) (cb : Callback) (h : i ≠ j) :
    ({ L with callbacks := L.callbacks.set i cb } : Logger).slot j = L.slot j := by
  simp [Logger.slot, List.getElem?_set_ne h]

/-- What the scan of `log_add_callback` does from slot `i` with `n` iterations left:
either every slot of the range is taken and the call returns `-1` without a change,
or it stops at the first free slot `j` of the range and stores the new registration
there. -/
theorem log_add_callback_loop_spec (L : Logger) (fn : LogFn) (udata : Ptr) (level : Int)
    (name : Option (List Char)) :
    ∀ (n i : Nat),
      ((∀ j, i ≤ j → j < i + n → (L.slot j).fn ≠ .null) ∧
          log_add_callback_loop L fn udata level name n i = .ok (L, -1)) ∨
        ∃ j, i ≤ j ∧ j < i + n ∧ (L.slot j).fn = .null ∧
          (∀ k, i ≤ k → k < j → (L.slot k).fn ≠ .null) ∧
          log_add_callback_loop L fn udata level name n i =
            (make_callback fn udata level name).map
              (fun cb => ({ L with callbacks := L.callbacks.set j cb }, (0 : Int))) := by
  intro n
  induction n with
  | zero =>
    intro i
    left
    exact ⟨fun j h1 h2 => by omega, rfl⟩
  | succ n ih =>
    intro i
    by_cases hfree : (L.slot i).fn = .null
    · right
      refine ⟨i, le_refl _, by omega, hfree, fun k h1 h2 => by omega, ?_⟩
      simp only [log_add_callback_loop, hfree, if_true]
      cases make_callback fn udata level name <;> rfl
    · rcases ih (i + 1) with ⟨hall, hres⟩ | ⟨j, h1, h2, h3, h4, hres⟩
      · left
        refine ⟨fun j h1 h2 => ?_, by simp [log_add_callback_loop, hfree, hres]⟩
        by_cases hj : j = i
        · subst hj; exact hfree
        · exact hall j (by omega) (by omega)
      · right
        refine ⟨j, by omega, by omega, h3, fun k hk1 hk2 => ?_, by
          simp [log_add_callback_loop, hfree, hres]⟩
        by_cases hk : k = i
        · subst hk; exact hfree
        · exact h4 k (by omega) hk2

/-- The same for the whole function `log_add_callback`. -/
theorem log_add_callback_spec (L : Logger) (fn : LogFn) (udata : Ptr) (level : Int)
    (name : Option (List Char)) :
    ((∀ j, j < MAX_CALLBACKS → (L.slot j).fn ≠ .null) ∧
        log_add_callback L fn udata level name = .ok (L, -1)) ∨
      ∃ j, j < MAX_CALLBACKS ∧ (L.slot j).fn = .null ∧
        (∀ k, k < j → (L.slot k).fn ≠ .null) ∧
        log_add_callback L fn udata level name =
          (make_callback fn udata level name).map
            (fun cb => ({ L with callbacks := L.callbacks.set j cb }, (0 : Int))) := by
  rcases log_add_callback_loop_spec L fn udata level name MAX_CALLBACKS 0 with
    ⟨hall, hres⟩ | ⟨j, -, h2, h3, h4, hres⟩
  · left
    exact ⟨fun j hj => hall j (Nat.zero_le _) (by simpa using hj), hres⟩
  · right
    exact ⟨j, by simpa using h2, h3, fun k hk => h4 k (Nat.zero_le _) hk, hres⟩

/-! ## Registration: consequences of the scan -/

/-- A call that returns at all returns `0` or `-1`; with `-1` nothing changed, with `0`
exactly the first free slot was overwritten by the new registration. -/
theorem log_add_callback_ok_cases {L L1 : Logger} {fn : LogFn} {udata : Ptr} {level : Int}
    {name : Option (List Char)} {rc : Int}
    (h : log_add_callback L fn udata level name = .ok (L1, rc)) :
    (rc = -1 ∧ L1 = L ∧ ∀ j, j < MAX_CALLBACKS → (L.slot j).fn ≠ .null) ∨
      ∃ i cb, rc = 0 ∧ i < MAX_CALLBACKS ∧ (L.slot i).fn = .null ∧
        (∀ k, k < i → (L.slot k).fn ≠ .null) ∧
        make_callback fn udata level name = .ok cb ∧
        L1 = { L with callbacks := L.callbacks.set i cb } := by
  rcases log_add_callback_spec L fn udata level name with ⟨hall, hres⟩ | ⟨j, h2, h3, h4, hres⟩
  · rw [hres] at h
    cases h
    exact Or.inl ⟨rfl, rfl, hall⟩
  · rw [hres] at h
    cases hm : make_callback fn udata level name with
    | error f => rw [hm] at h; cases h
    | ok cb =>
      rw [hm] at h
      cases h
      exact Or.inr ⟨j, cb, rfl, h2, h3, h4, rfl, rfl⟩

theorem wellSized_set (L : Logger) (i : Nat) (cb : Callback) (h : L.WellSized) :
    ({ L with callbacks := L.callbacks.set i cb } : Logger).WellSized := by
  simpa [Logger.WellSized] using h

theorem wellSized_init : Logger.init.WellSized := by
  simp [Logger.WellSized, Logger.init]

theorem slot_init (i : Nat) : Logger.init.slot i = Callback.zero := by
  simp only [Logger.slot, Logger.init, List.getD_eq_getElem?_getD, List.getElem?_replicate]
  split <;> rfl

theorem emptyTable_init : Logger.init.EmptyTable := by
  intro i _ h
  exact h (by rw [slot_init]; rfl)

theorem contiguousFront_of_empty {L : Logger} (h : L.EmptyTable) : L.ContiguousFront := by
  intro i hi j _ hocc
  exact absurd hocc (h i hi)

/-- Registering in a table whose first `k` slots are exactly the occupied ones. -/
theorem log_add_callback_at_front (L : Logger) (r : Registration) (k : Nat)
    (hk : k < MAX_CALLBACKS)
    (hocc : ∀ j, j < k → L.occupied j) (hfree : ∀ j, k ≤ j → j < MAX_CALLBACKS → ¬ L.occupied j)
    (hfit : r.Fits) :
    ∃ cb, make_callback r.fn r.udata r.level r.save_str = .ok cb ∧
      log_add_callback L r.fn r.udata r.level r.save_str =
        .ok ({ L with callbacks := L.callbacks.set k cb }, 0) := by
  obtain ⟨cb, hcb⟩ := make_callback_ok_of_fits r.fn r.udata r.level r.save_str hfit
  refine ⟨cb, hcb, ?_⟩
  rcases log_add_callback_spec L r.fn r.udata r.level r.save_str with
    ⟨hall, -⟩ | ⟨j, h2, h3, h4, hres⟩
  · exact absurd (hall k hk) (hfree k (le_refl _) hk)
  · have hjk : j = k := by
      rcases Nat.lt_trichotomy j k with hlt | heq | hgt
      · exact absurd h3 (hocc j hlt)
      · exact heq
      · exact absurd (h4 k hgt) (hfree k (le_refl _) hk)
    subst hjk
    rw [hres, hcb]
    rfl

/-- Registrations fill the table from the front: `n` registrations on a table whose
first `k` slots are the occupied ones all return `0` while `k + n` stays within the
capacity, and leave the first `k + n` slots occupied. -/
theorem register_all_fills (regs : List Registration) :
    ∀ (L : Logger) (k : Nat), L.WellSized → k + regs.length ≤ MAX_CALLBACKS →
      (∀ j, j < k → L.occupied j) → (∀ j, k ≤ j → j < MAX_CALLBACKS → ¬ L.occupied j) →
      (∀ r ∈ regs, r.fn ≠ .null) → (∀ r ∈ regs, r.Fits) →
      ∃ L1, register_all L regs = .ok (L1, List.replicate regs.length 0) ∧ L1.WellSized ∧
        (∀ j, j < k + regs.length → L1.occupied j) ∧
        (∀ j, k + regs.length ≤ j → j < MAX_CALLBACKS → ¬ L1.occupied j) := by
  induction regs with
  | nil =>
    intro L k hsize _ hocc hfree _ _
    exact ⟨L, rfl, hsize, by simpa using hocc, by simpa using hfree⟩
  | cons r rs ih =>
    intro L k hsize hcap hocc hfree hfn hfit
    have hk : k < MAX_CALLBACKS := by simp only [List.length_cons] at hcap; omega
    obtain ⟨cb, hcb, hadd⟩ :=
      log_add_callback_at_front L r k hk hocc hfree (hfit r (List.mem_cons_self _ _))
    have hcbfn : cb.fn ≠ .null := by
      rw [(make_callback_fields hcb).1]
      exact hfn r (List.mem_cons_self _ _)
    have hkl : k < L.callbacks.length := by rw [hsize]; exact hk
    obtain ⟨L2, hrest, hsize2, hocc2, hfree2⟩ :=
      ih { L with callbacks := L.callbacks.set k cb } (k + 1) (wellSized_set L k cb hsize)
        (by simp only [List.length_cons] at hcap; omega)
        (fun j hj => by
          by_cases hjk : j = k
          · subst hjk
            simpa [Logger.occupied, slot_set_self L j cb hkl] using hcbfn
          · simpa [Logger.occupied, slot_set_ne L k j cb (Ne.symm hjk)] using
              hocc j (by omega))
        (fun j hj1 hj2 => by
          have hjk : k ≠ j := by omega
          simpa [Logger.occupied, slot_set_ne L k j cb hjk] using hfree j (by omega) hj2)
        (fun r hr => hfn r (List.mem_cons_of_mem _ hr))
        (fun r hr => hfit r (List.mem_cons_of_mem _ hr))
    refine ⟨L2, ?_, hsize2, ?_, ?_⟩
    · simp [register_all, hadd, hrest, List.replicate_succ]
    · intro j hj
      exact hocc2 j (by simp only [List.length_cons] at hj; omega)
    · intro j hj1 hj2
      exact hfree2 j (by simp only [List.length_cons] at hj1; omega) hj2

/-- On a full table every call returns `-1` and changes nothing. -/
theorem log_add_callback_full (L : Logger) (r : Registration)
    (hfull : ∀ j, j < MAX_CALLBACKS → L.occupied j) :
    log_add_callback L r.fn r.udata r.level r.save_str = .ok (L, -1) := by
  rcases log_add_callback_spec L r.fn r.udata r.level r.save_str with
    ⟨-, hres⟩ | ⟨j, h2, h3, -, -⟩
  · exact hres
  · exact absurd h3 (hfull j h2)

/-- The loop of `log_log` reaches exactly the occupied slots when they are a contiguous
front. -/
theorem log_log_visited_eq (L : Logger) (hfront : L.ContiguousFront) :
    ∀ (n i : Nat), i + n ≤ MAX_CALLBACKS →
      log_log_visited L n i = (List.range' i n).filter (fun j => decide (L.occupied j)) := by
  intro n
  induction n with
  | zero => intro i _; rfl
  | succ n ih =>
    intro i hi
    by_cases hfree : (L.slot i).fn = .null
    · have hnone : ∀ j ∈ List.range' i (n + 1), ¬ (decide (L.occupied j) = true) := by
        intro j hj hocc
        rw [List.mem_range'_1] at hj
        have hoccj : L.occupied j := of_decide_eq_true hocc
        by_cases hji : j = i
        · subst hji; exact hoccj hfree
        · exact hfront j (by omega) i (by omega) hoccj hfree
      simp only [log_log_visited, hfree, if_true]
      exact (List.filter_eq_nil_iff.mpr hnone).symm
    · have hocc : decide (L.occupied i) = true := decide_eq_true hfree
      simp only [log_log_visited, hfree, if_false, List.range'_succ]
      rw [List.filter_cons, if_pos hocc, ih (i + 1) (by omega)]

/-! ## The C library model: formats of the source -/

theorem emit_ok (pre r : List Char) : emit pre (.ok r) = .ok (pre ++ r) := rfl

/-- The prefix format of the three sink functions, evaluated. -/
theorem vformat_line_head (buf name file : List Char) (line : Int) :
    vformat "%s %-5s %s:%d: ".toList [.str buf, .str name, .str file, .int line] =
      .ok (buf ++ ' ' :: (name ++ List.replicate (5 - name.length) ' ') ++
        ' ' :: file ++ ':' :: intDec line ++ [':', ' ']) := by
  simp [vformat, vformat_go, emit, pad, Char.isDigit]

/-- The prefix format of `stdout_callback` under `LOG_USE_COLOR`, evaluated. -/
theorem vformat_color_head (buf color name file : List Char) (line : Int) :
    vformat "%s %s%-5s\x1b[0m \x1b[90m%s:%d:\x1b[0m ".toList
        [.str buf, .str color, .str name, .str file, .int line] =
      .ok (buf ++ ' ' :: color ++ (name ++ List.replicate (5 - name.length) ' ') ++
        "\x1b[0m \x1b[90m".toList ++ file ++ ':' :: intDec line ++ ":\x1b[0m ".toList) := by
  simp [vformat, vformat_go, emit, pad, Char.isDigit]

theorem vformat_newline : vformat "\n".toList [] = .ok ['\n'] := by
  simp [vformat, vformat_go, emit]

theorem strftime_time (t : Tm) :
    strftime_go "%H:%M:%S".toList t =
      .ok (zpad2 t.tm_hour ++ ':' :: zpad2 t.tm_min ++ ':' :: zpad2 t.tm_sec) := by
  simp [strftime_go, strftime_conv, emit]

theorem strftime_date_time (t : Tm) :
    strftime_go "%Y-%m-%d %H:%M:%S".toList t =
      .ok (natDec (t.tm_year + 1900) ++ '-' :: zpad2 (t.tm_mon + 1) ++ '-' :: zpad2 t.tm_mday ++
        ' ' :: zpad2 t.tm_hour ++ ':' :: zpad2 t.tm_min ++ ':' :: zpad2 t.tm_sec) := by
  simp [strftime_go, strftime_conv, emit]

/-! ## The C library model: decimal digits -/

theorem digitChar_ne_newline (k : Nat) : Nat.digitChar k ≠ '\n' := by
  by_cases h : k < 16
  · interval_cases k <;> decide
  · have h16 : Nat.digitChar k = '*' := by
      unfold Nat.digitChar
      simp only [show k ≠ 0 by omega, show k ≠ 1 by omega, show k ≠ 2 by omega,
        show k ≠ 3 by omega, show k ≠ 4 by omega, show k ≠ 5 by omega, show k ≠ 6 by omega,
        show k ≠ 7 by omega, show k ≠ 8 by omega, show k ≠ 9 by omega, show k ≠ 10 by omega,
        show k ≠ 11 by omega, show k ≠ 12 by omega, show k ≠ 13 by omega,
        show k ≠ 14 by omega, show k ≠ 15 by omega, if_false]
    rw [h16]
    decide

theorem toDigitsCore_no_newline (fuel : Nat) :
    ∀ (n : Nat) (ds : List Char), '\n' ∉ ds → '\n' ∉ Nat.toDigitsCore 10 fuel n ds := by
  induction fuel with
  | zero => intro n ds h; exact h
  | succ fuel ih =>
    intro n ds h
    have hcons : '\n' ∉ Nat.digitChar (n % 10) :: ds := by
      intro hm
      rcases List.mem_cons.mp hm with heq | hin
      · exact digitChar_ne_newline _ heq.symm
      · exact h hin
    unfold Nat.toDigitsCore
    simp only
    split
    · exact hcons
    · exact ih _ _ hcons

theorem natDec_no_newline (n : Nat) : '\n' ∉ natDec n :=
  toDigitsCore_no_newline _ _ _ (List.not_mem_nil _)

theorem intDec_no_newline (i : Int) : '\n' ∉ intDec i := by
  cases i with
  | ofNat n => exact natDec_no_newline n
  | negSucc n =>
    intro hm
    rcases List.mem_cons.mp hm with heq | hin
    · exact absurd heq (by decide)
    · exact natDec_no_newline _ hin

theorem zpad2_no_newline (n : Nat) : '\n' ∉ zpad2 n := by
  unfold zpad2
  split
  · intro hm
    rcases List.mem_cons.mp hm with heq | hin
    · exact absurd heq (by decide)
    · exact natDec_no_newline _ hin
  · exact natDec_no_newline n

theorem natDec_lt_ten (n : Nat) (h : n < 10) : natDec n = [Nat.digitChar n] := by
  simp [natDec, Nat.toDigits, Nat.toDigitsCore, Nat.div_eq_of_lt h, Nat.mod_eq_of_lt h]

theorem natDec_two (n : Nat) (h1 : 10 ≤ n) (h2 : n < 100) :
    natDec n = [Nat.digitChar (n / 10), Nat.digitChar (n % 10)] := by
  obtain ⟨k, rfl⟩ : ∃ k, n = k + 1 := ⟨n - 1, by omega⟩
  have hd : (k + 1) / 10 ≠ 0 := by omega
  have hdd : (k + 1) / 10 / 10 = 0 := by omega
  have hm : (k + 1) / 10 % 10 = (k + 1) / 10 := by omega
  simp [natDec, Nat.toDigits, Nat.toDigitsCore, hd, hdd, hm]

theorem zpad2_eq_two_digits (n : Nat) (h : n < 100) : zpad2 n = two_digits n := by
  unfold zpad2 two_digits
  by_cases h10 : n < 10
  · simp [h10, natDec_lt_ten n h10, Nat.div_eq_of_lt h10, Nat.mod_eq_of_lt h10]
    rfl
  · simp [h10, natDec_two n (by omega) h]

theorem natDec_four (n : Nat) (h1 : 1000 ≤ n) (h2 : n ≤ 9999) : natDec n = four_digits n := by
  obtain ⟨k, rfl⟩ : ∃ k, n = k + 3 := ⟨n - 3, by omega⟩
  have hd1 : (k + 3) / 10 ≠ 0 := by omega
  have hd2 : (k + 3) / 10 / 10 ≠ 0 := by omega
  have hd3 : (k + 3) / 10 / 10 / 10 ≠ 0 := by omega
  have hd4 : (k + 3) / 10 / 10 / 10 / 10 = 0 := by omega
  have e1 : (k + 3) / 10 / 10 / 10 % 10 = (k + 3) / 1000 := by omega
  have e2 : (k + 3) / 10 / 10 % 10 = (k + 3) / 100 % 10 := by omega
  simp [natDec, four_digits, Nat.toDigits, Nat.toDigitsCore, hd1, hd2, hd3, hd4, e1, e2]

/-- For a valid time the two stamps the sink functions render are the layouts
`HH:MM:SS` and `YYYY-MM-DD HH:MM:SS`, and both fit their arrays. -/
theorem strftime_buf_time (t : Tm) (h : t.Valid) :
    strftime_buf 16 "%H:%M:%S".toList t = .ok (layout_time t) := by
  obtain ⟨hs, hm, hh, -, -, -, -, -⟩ := h
  rw [strftime_buf, strftime_time, zpad2_eq_two_digits _ (by omega : t.tm_hour < 100),
    zpad2_eq_two_digits _ (by omega : t.tm_min < 100),
    zpad2_eq_two_digits _ (by omega : t.tm_sec < 100)]
  simp [layout_time, two_digits]

theorem strftime_buf_date_time (t : Tm) (h : t.Valid) :
    strftime_buf 64 "%Y-%m-%d %H:%M:%S".toList t = .ok (layout_date_time t) := by
  obtain ⟨hs, hm, hh, hd1, hd2, hmo, hy1, hy2⟩ := h
  rw [strftime_buf, strftime_date_time, zpad2_eq_two_digits _ (by omega : t.tm_hour < 100),
    zpad2_eq_two_digits _ (by omega : t.tm_min < 100),
    zpad2_eq_two_digits _ (by omega : t.tm_sec < 100),
    zpad2_eq_two_digits _ (by omega : t.tm_mon + 1 < 100),
    zpad2_eq_two_digits _ (by omega : t.tm_mday < 100), natDec_four _ hy1 hy2]
  simp [layout_date_time, layout_time, two_digits, four_digits]

/-- Whatever the time, the stamp of `stdout_callback` exists and holds no newline. -/
theorem strftime_buf_time_no_newline (t : Tm) :
    ∃ buf, strftime_buf 16 "%H:%M:%S".toList t = .ok buf ∧ '\n' ∉ buf := by
  rw [strftime_buf, strftime_time]
  simp only
  split
  · refine ⟨_, rfl, ?_⟩
    have h1 := zpad2_no_newline t.tm_hour
    have h2 := zpad2_no_newline t.tm_min
    have h3 := zpad2_no_newline t.tm_sec
    simp [h1, h2, h3]
  · exact ⟨[], rfl, List.not_mem_nil _⟩

/-! ## Runs and their effects -/

theorem Run.seq_ok {r k : Run} {fs fs2 : FS} {es : List Effect}
    (h : (r.seq k) fs = .ok (es, fs2)) :
    ∃ e1 fs1 e2, r fs = .ok (e1, fs1) ∧ k fs1 = .ok (e2, fs2) ∧ es = e1 ++ e2 := by
  unfold Run.seq at h
  cases hr : r fs with
  | error f => rw [hr] at h; cases h
  | ok p =>
    obtain ⟨e1, fs1⟩ := p
    rw [hr] at h
    simp only at h
    cases hk : k fs1 with
    | error f => rw [hk] at h; cases h
    | ok q =>
      obtain ⟨e2, fs3⟩ := q
      rw [hk] at h
      simp only [Except.ok.injEq, Prod.mk.injEq] at h
      exact ⟨e1, fs1, e2, rfl, by rw [← h.2]; exact hk, h.1.symm⟩

theorem Run.seq_eq_ok {r k : Run} {fs fs1 fs2 : FS} {e1 e2 : List Effect}
    (hr : r fs = .ok (e1, fs1)) (hk : k fs1 = .ok (e2, fs2)) :
    (r.seq k) fs = .ok (e1 ++ e2, fs2) := by
  simp [Run.seq, hr, hk]

theorem Run.emit_eq {es e : List Effect} {fs fs1 : FS} (h : Run.emit es fs = .ok (e, fs1)) :
    e = es ∧ fs1 = fs := by
  simp only [Run.emit, Except.ok.injEq, Prod.mk.injEq] at h
  exact ⟨h.1.symm, h.2.symm⟩

theorem called_slots_append (a b : List Effect) :
    called_slots (a ++ b) = called_slots a ++ called_slots b := by
  induction a with
  | nil => rfl
  | cons e a ih => cases e <;> simp [called_slots, ih]

theorem written_by_append (w : Writer) (a b : List Effect) :
    written_by w (a ++ b) = written_by w a ++ written_by w b := by
  induction a with
  | nil => rfl
  | cons e a ih =>
    cases e with
    | write w1 f text =>
      by_cases hw : w1 = w <;> simp [written_by, hw, ih]
    | _ => simp [written_by, ih]

theorem called_slots_of_bySink {es : List Effect} (h : ∀ e ∈ es, e.bySink = true) :
    called_slots es = [] := by
  induction es with
  | nil => rfl
  | cons e es ih =>
    have he := h e (List.mem_cons_self _ _)
    have hes := ih (fun x hx => h x (List.mem_cons_of_mem _ hx))
    cases e <;> simp_all [called_slots, Effect.bySink]

theorem written_by_console_of_bySink {es : List Effect} (h : ∀ e ∈ es, e.bySink = true) :
    written_by .stdout_callback es = [] := by
  induction es with
  | nil => rfl
  | cons e es ih =>
    have he := h e (List.mem_cons_self _ _)
    have hes := ih (fun x hx => h x (List.mem_cons_of_mem _ hx))
    cases e with
    | write w f text =>
      cases w with
      | stdout_callback => simp [Effect.bySink] at he
      | sink fn => simp [written_by, hes]
    | _ => simp [written_by, hes]

theorem isLock_of_bySink {e : Effect} (h : e.bySink = true) : e.isLock = false := by
  cases e <;> simp_all [Effect.bySink, Effect.isLock]

theorem byConsole_of_bySink {e : Effect} (h : e.bySink = true) : e.byConsole = false := by
  cases e with
  | write w f text => cases w <;> simp_all [Effect.bySink, Effect.byConsole]
  | flush w f => cases w <;> simp_all [Effect.bySink, Effect.byConsole]
  | close w f => cases w <;> simp_all [Effect.bySink, Effect.byConsole]
  | _ => rfl

theorem isLock_of_isCall {e : Effect} (h : e.isCall = true) : e.isLock = false := by
  cases e <;> simp_all [Effect.isCall, Effect.isLock]

theorem byConsole_of_isCall {e : Effect} (h : e.isCall = true) : e.byConsole = false := by
  cases e <;> simp_all [Effect.isCall, Effect.byConsole]

/-! ## The output functions -/

theorem fprintf_ok {w : Writer} {f : FilePtr} {fmt : List Char} {args : List Arg}
    {fs fs1 : FS} {es : List Effect} (h : fprintf w f fmt args fs = .ok (es, fs1)) :
    ∃ text, vformat fmt args = .ok text ∧ es = [.write w f text] ∧ f ≠ .null := by
  unfold fprintf at h
  cases f with
  | null => cases h
  | handle p =>
    simp only at h
    cases hv : vformat fmt args with
    | error e => rw [hv] at h; cases h
    | ok text =>
      rw [hv] at h
      simp only [put_text, Except.ok.injEq, Prod.mk.injEq] at h
      exact ⟨text, rfl, h.1.symm, by simp⟩
  | opened path =>
    simp only at h
    cases hv : vformat fmt args with
    | error e => rw [hv] at h; cases h
    | ok text =>
      rw [hv] at h
      simp only [put_text, Except.ok.injEq, Prod.mk.injEq] at h
      exact ⟨text, rfl, h.1.symm, by simp⟩

/-- What `write_line` does when it returns: three writes (prefix, message, newline) and
a flush, all on the same stream, which is not `NULL`. -/
theorem write_line_ok {w : Writer} {f : FilePtr} {fmt : List Char} {args : List Arg}
    {ev : log_Event} {fs fs1 : FS} {es : List Effect}
    (h : write_line w f fmt args ev fs = .ok (es, fs1)) :
    ∃ pre msg, vformat fmt args = .ok pre ∧ vformat ev.fmt ev.ap = .ok msg ∧ f ≠ .null ∧
      es = [.write w f pre, .write w f msg, .write w f ['\n'], .flush w f] := by
  unfold write_line at h
  obtain ⟨e12, fs12, e34, h12, h34, rfl⟩ := Run.seq_ok h
  obtain ⟨e1, fs1a, e2, h1, h2, rfl⟩ := Run.seq_ok h12
  obtain ⟨e3, fs3, e4, h3, h4, rfl⟩ := Run.seq_ok h34
  obtain ⟨pre, hpre, rfl, hf⟩ := fprintf_ok h1
  obtain ⟨msg, hmsg, rfl, -⟩ := fprintf_ok h2
  obtain ⟨nl, hnl, rfl, -⟩ := fprintf_ok h3
  rw [vformat_newline] at hnl
  cases hnl
  obtain ⟨rfl, -⟩ := Run.emit_eq h4
  exact ⟨pre, msg, hpre, hmsg, hf, rfl⟩

theorem vformat_newline_chars : vformat ['\n'] [] = .ok ['\n'] := vformat_newline

/-- On a stream of the caller `write_line` touches no file. -/
theorem write_line_handle (w : Writer) (p : Ptr) (fmt : List Char) (args : List Arg)
    (ev : log_Event) (fs : FS) (pre msg : List Char) (hpre : vformat fmt args = .ok pre)
    (hmsg : vformat ev.fmt ev.ap = .ok msg) :
    write_line w (.handle p) fmt args ev fs =
      .ok ([.write w (.handle p) pre, .write w (.handle p) msg, .write w (.handle p) ['\n'],
        .flush w (.handle p)], fs) := by
  simp [write_line, Run.seq, fprintf, put_text, fflush, Run.emit, hpre, hmsg,
    vformat_newline_chars]

theorem FS.read_put (fs : FS) (path content : List Char) :
    (fs.put path content).read path = some content := by
  simp [FS.read, FS.put]

/-- On a stream opened on `path`, `write_line` appends the three pieces to the file. -/
theorem write_line_opened (w : Writer) (path : List Char) (fmt : List Char) (args : List Arg)
    (ev : log_Event) (fs : FS) (pre msg : List Char) (hpre : vformat fmt args = .ok pre)
    (hmsg : vformat ev.fmt ev.ap = .ok msg) :
    ∃ fs1, write_line w (.opened path) fmt args ev fs =
        .ok ([.write w (.opened path) pre, .write w (.opened path) msg,
          .write w (.opened path) ['\n'], .flush w (.opened path)], fs1) ∧
      fs1.read path = some ((fs.read path).getD [] ++ pre ++ msg ++ ['\n']) ∧
      fs1.denied = fs.denied := by
  refine ⟨_, by
    simp only [write_line, Run.seq, fprintf, put_text, fflush, Run.emit, hpre, hmsg,
      vformat_newline, List.cons_append, List.nil_append]
    rfl, ?_, ?_⟩
  · simp [FS.read_put, List.append_assoc]
  · rfl

theorem fopen_append_denied (fs : FS) (path : List Char) (h : path ∉ fs.denied) :
    ∃ fs1, fopen fs path .a_plus = (.opened path, fs1) ∧
      (fs1.read path).getD [] = (fs.read path).getD [] ∧ fs1.denied = fs.denied := by
  unfold fopen
  simp only [h, if_false]
  cases hr : fs.read path with
  | some c => exact ⟨fs, rfl, by rw [hr], rfl⟩
  | none => exact ⟨fs.put path [], rfl, by simp [FS.read_put], rfl⟩

theorem bySink_write_line {fn : LogFn} {f : FilePtr} {fmt : List Char} {args : List Arg}
    {ev : log_Event} {fs fs1 : FS} {es : List Effect}
    (h : write_line (.sink fn) f fmt args ev fs = .ok (es, fs1)) :
    ∀ e ∈ es, e.bySink = true := by
  obtain ⟨pre, msg, -, -, -, rfl⟩ := write_line_ok h
  intro e he
  simp only [List.mem_cons, List.mem_singleton, List.not_mem_nil, or_false] at he
  rcases he with rfl | rfl | rfl | rfl <;> rfl

theorem bySink_file_callback {ev : log_Event} {fs fs1 : FS} {es : List Effect}
    (h : file_callback ev fs = .ok (es, fs1)) : ∀ e ∈ es, e.bySink = true := by
  unfold file_callback at h
  split at h
  · cases h
  · split at h
    · cases h
    · split at h
      · exact bySink_write_line h
      · cases h
      · cases h

theorem bySink_file_bypath_callback {ev : log_Event} {fs fs1 : FS} {es : List Effect}
    (h : file_bypath_callback ev fs = .ok (es, fs1)) : ∀ e ∈ es, e.bySink = true := by
  unfold file_bypath_callback at h
  split at h
  · cases h
  · simp only at h
    split at h
    · cases h
    · split at h
      · cases h
      · split at h
        · cases h
        · obtain ⟨e1, fsa, e2, h1, h2, rfl⟩ := Run.seq_ok h
          have hb := bySink_write_line h1
          intro e he
          rcases List.mem_append.mp he with h3 | h3
          · exact hb e h3
          · unfold fclose at h2
            split at h2
            · cases h2
            · simp only [Except.ok.injEq, Prod.mk.injEq] at h2
              rw [← h2.1] at h3
              simp only [List.mem_singleton] at h3
              rw [h3]
              rfl

/-- A sink function that returns has only performed output operations of its own. -/
theorem bySink_call_fn {fn : LogFn} {ev : log_Event} {fs fs1 : FS} {es : List Effect}
    (h : call_fn fn ev fs = .ok (es, fs1)) : ∀ e ∈ es, e.bySink = true := by
  cases fn with
  | null => cases h
  | file_callback => exact bySink_file_callback h
  | file_bypath_callback => exact bySink_file_bypath_callback h
  | user id =>
    obtain ⟨rfl, -⟩ := Run.emit_eq h
    intro e he
    cases he

/-! ## The console sink -/

theorem index6_ok {a : List (List Char)} {level : Int} {name : List Char}
    (h : index6 a level = .ok name) :
    0 ≤ level ∧ level < 6 ∧ name = a.getD level.toNat [] := by
  unfold index6 at h
  split at h
  · rename_i hr
    cases h
    exact ⟨hr.1, hr.2, rfl⟩
  · cases h

theorem index6_of_range (a : List (List Char)) {level : Int} (h0 : 0 ≤ level) (h5 : level ≤ 5) :
    index6 a level = .ok (a.getD level.toNat []) := by
  have : 0 ≤ level ∧ level < 6 := ⟨h0, by omega⟩
  simp [index6, this]

theorem level_strings_no_newline {level : Int} {name : List Char}
    (h : index6 level_strings level = .ok name) : '\n' ∉ name := by
  obtain ⟨h0, h6, rfl⟩ := index6_ok h
  have hn : level.toNat < 6 := by omega
  generalize level.toNat = n at hn
  interval_cases n <;> decide

theorem level_colors_no_newline {level : Int} {name : List Char}
    (h : index6 level_colors level = .ok name) : '\n' ∉ name := by
  obtain ⟨h0, h6, rfl⟩ := index6_ok h
  have hn : level.toNat < 6 := by omega
  generalize level.toNat = n at hn
  interval_cases n <;> decide

theorem count_newline_zero {s : List Char} (h : '\n' ∉ s) : List.count '\n' s = 0 :=
  List.count_eq_zero.mpr h

theorem count_newline_replicate_blank (n : Nat) : List.count '\n' (List.replicate n ' ') = 0 := by
  apply List.count_eq_zero.mpr
  intro hm
  exact absurd (List.eq_of_mem_replicate hm) (by decide)

/-- What `stdout_callback` does when it returns: its output is one prefix, the rendered
message and a newline; the prefix holds the name of the level, the file name and the
line number, and no newline but those of the file name. -/
theorem stdout_callback_ok {b : Build} {ev : log_Event} {fs fs1 : FS} {es : List Effect}
    (h : stdout_callback b ev fs = .ok (es, fs1)) :
    ∃ name msg pre f, log_level_string ev.level = .ok name ∧
      vformat ev.fmt ev.ap = .ok msg ∧ ev.udata.toFile = .ok f ∧
      es = [.write .stdout_callback f pre, .write .stdout_callback f msg,
        .write .stdout_callback f ['\n'], .flush .stdout_callback f] ∧
      name <:+: pre ∧ ev.file <:+: pre ∧ intDec ev.line <:+: pre ∧
      List.count '\n' pre = List.count '\n' ev.file := by
  unfold stdout_callback at h
  split at h
  · cases h
  · rename_i tm htm
    obtain ⟨buf, hbuf, hbufnl⟩ := strftime_buf_time_no_newline tm
    rw [hbuf] at h
    simp only at h
    split at h
    · rename_i args f hargs hf
      obtain ⟨pre, msg, hpre, hmsg, -, rfl⟩ := write_line_ok h
      unfold stdout_args at hargs
      split at hargs
      · cases hargs
      · rename_i name hname
        have hnamenl := level_strings_no_newline hname
        refine ⟨name, msg, pre, f, hname, hmsg, hf, rfl, ?_⟩
        by_cases hc : b.LOG_USE_COLOR = true
        · simp only [hc, if_true] at hargs
          split at hargs
          · cases hargs
          · rename_i color hcolor
            have hcolornl := level_colors_no_newline hcolor
            cases hargs
            simp only [stdout_format, hc, if_true] at hpre
            rw [vformat_color_head] at hpre
            cases hpre
            refine ⟨?_, ?_, ?_, ?_⟩
            · exact ⟨buf ++ ' ' :: color, List.replicate (5 - name.length) ' ' ++
                "\x1b[0m \x1b[90m".toList ++ ev.file ++ ':' :: intDec ev.line ++
                ":\x1b[0m ".toList, by simp⟩
            · exact ⟨buf ++ ' ' :: color ++ (name ++ List.replicate (5 - name.length) ' ') ++
                "\x1b[0m \x1b[90m".toList, ':' :: intDec ev.line ++ ":\x1b[0m ".toList, by simp⟩
            · exact ⟨buf ++ ' ' :: color ++ (name ++ List.replicate (5 - name.length) ' ') ++
                "\x1b[0m \x1b[90m".toList ++ ev.file ++ [':'], ":\x1b[0m ".toList, by simp⟩
            · simp [List.count_append, List.count_cons, count_newline_zero hbufnl,
                count_newline_zero hcolornl, count_newline_zero hnamenl,
                count_newline_replicate_blank, count_newline_zero (intDec_no_newline ev.line)]
        · have hplain : b.LOG_USE_COLOR = false := by simpa using hc
          simp only [hplain, Bool.false_eq_true, if_false] at hargs
          cases hargs
          simp only [stdout_format, hplain, Bool.false_eq_true, if_false] at hpre
          rw [vformat_line_head] at hpre
          cases hpre
          refine ⟨?_, ?_, ?_, ?_⟩
          · exact ⟨buf ++ [' '], List.replicate (5 - name.length) ' ' ++
              ' ' :: ev.file ++ ':' :: intDec ev.line ++ [':', ' '], by simp⟩
          · exact ⟨buf ++ ' ' :: (name ++ List.replicate (5 - name.length) ' ') ++ [' '],
              ':' :: intDec ev.line ++ [':', ' '], by simp⟩
          · exact ⟨buf ++ ' ' :: (name ++ List.replicate (5 - name.length) ' ') ++
              ' ' :: ev.file ++ [':'], [':', ' '], by simp⟩
          · simp [List.count_append, List.count_cons, count_newline_zero hbufnl,
              count_newline_zero hnamenl, count_newline_replicate_blank,
              count_newline_zero (intDec_no_newline ev.line)]
    · cases h
    · cases h

/-! ## The dispatch loop of `log_log` -/

theorem init_event_udata (ev : log_Event) (L : Logger) (i : Nat) (now : Tm) :
    (init_event ev (L.slot i) i now).udata = L.target i := by
  unfold init_event Logger.target
  simp only
  split <;> rfl

/-- What the loop of `log_log` has done when it returns: it has invoked, in slot order,
exactly the slots it reaches whose threshold the level meets, each with the function
and the target of its slot; beside these calls there are only output operations of the
sink functions. -/
theorem log_log_loop_ok (L : Logger) (level : Int) (args : List Arg) (now : Tm) :
    ∀ (n i : Nat) (ev : log_Event) (fs fs1 : FS) (es : List Effect),
      log_log_loop L level args now n i ev fs = .ok (es, fs1) →
      called_slots es =
          (log_log_visited L n i).filter (fun j => decide ((L.slot j).level ≤ level)) ∧
        (∀ e ∈ es, e.isCall = true ∨ e.bySink = true) ∧
        (∀ j fn ev1, Effect.call j fn ev1 ∈ es →
          fn = (L.slot j).fn ∧ ev1.udata = L.target j ∧ ev1.level = ev.level) := by
  intro n
  induction n with
  | zero =>
    intro i ev fs fs1 es h
    obtain ⟨rfl, -⟩ := Run.emit_eq h
    exact ⟨rfl, fun e he => (by cases he), fun j fn ev1 he => (by cases he)⟩
  | succ n ih =>
    intro i ev fs fs1 es h
    unfold log_log_loop at h
    simp only at h
    by_cases hfree : (L.slot i).fn = .null
    · simp only [hfree, if_true] at h
      obtain ⟨rfl, -⟩ := Run.emit_eq h
      refine ⟨?_, fun e he => (by cases he), fun j fn ev1 he => (by cases he)⟩
      simp [log_log_visited, hfree, called_slots]
    · simp only [hfree, if_false] at h
      by_cases hdue : level ≥ (L.slot i).level
      · simp only [hdue, if_true] at h
        obtain ⟨e1, fsa, e23, h1, h23, rfl⟩ := Run.seq_ok h
        obtain ⟨e2, fsb, e3, h2, h3, rfl⟩ := Run.seq_ok h23
        obtain ⟨rfl, -⟩ := Run.emit_eq h1
        have hsink := bySink_call_fn h2
        obtain ⟨hc, hl, ht⟩ := ih (i + 1) _ fsb fs1 e3 h3
        refine ⟨?_, ?_, ?_⟩
        · have hd : decide ((L.slot i).level ≤ level) = true := decide_eq_true hdue
          simp only [log_log_visited, hfree, if_false, List.filter_cons, hd, if_true]
          rw [List.singleton_append]
          simp [called_slots, called_slots_append, called_slots_of_bySink hsink, hc]
        · intro e he
          simp only [List.singleton_append, List.mem_cons, List.mem_append] at he
          rcases he with rfl | he | he
          · exact Or.inl rfl
          · exact Or.inr (hsink e he)
          · exact hl e he
        · intro j fn ev1 he
          simp only [List.singleton_append, List.mem_cons, List.mem_append] at he
          rcases he with he | he | he
          · cases he
            exact ⟨rfl, init_event_udata ev L i now, by
              unfold init_event; simp only; split <;> split <;> rfl⟩
          · have := hsink _ he
            simp [Effect.bySink] at this
          · obtain ⟨a, b, c⟩ := ht j fn ev1 he
            refine ⟨a, b, ?_⟩
            rw [c]
            unfold init_event; simp only; split <;> split <;> rfl
      · simp only [hdue, if_false] at h
        obtain ⟨hc, hl, ht⟩ := ih (i + 1) ev fs fs1 es h
        refine ⟨?_, hl, ht⟩
        have hd : decide ((L.slot i).level ≤ level) = false := decide_eq_false hdue
        simp only [log_log_visited, hfree, if_false, List.filter_cons, hd]
        simpa using hc

/-! ## The whole of `log_log` -/

/-- The event `log_log` starts from. -/
theorem log_log_console_level (b : Build) (L : Logger) (level : Int) (args : List Arg)
    (now : Tm) (ev : log_Event) : (log_log_console b L level args now ev).1.level = ev.level := by
  unfold log_log_console
  split <;> rfl

/-- The shape of a run of `log_log` that returns: the lock call if a hook is installed,
the output of the console block, the effects of the dispatch loop, the unlock call if
a hook is installed. -/
theorem log_log_ok {b : Build} {L : Logger} {level : Int} {file : List Char} {line : Int}
    {fmt : List Char} {args : List Arg} {now : Tm} {fs fs2 : FS} {tr : List Effect}
    (h : log_log b L level file line fmt args now fs = .ok (tr, fs2)) :
    ∃ con sinks fs1 ev0,
      tr = lock L ++ con ++ (sinks ++ unlock L) ∧
      ev0.level = level ∧ ev0.file = file ∧ ev0.line = line ∧ ev0.fmt = fmt ∧ ev0.ap = args ∧
      ev0.udata = .ptr stderr ∧ ev0.time = some now ∧
      ((L.quiet = false ∧ level ≥ L.level) → stdout_callback b ev0 fs = .ok (con, fs1)) ∧
      (¬ (L.quiet = false ∧ level ≥ L.level) → con = []) ∧
      ∃ ev1, ev1.level = level ∧
        log_log_loop L level args now MAX_CALLBACKS 0 ev1 fs1 = .ok (sinks, fs2) := by
  unfold log_log at h
  obtain ⟨e12, fsa, e34, h12, h34, rfl⟩ := Run.seq_ok h
  obtain ⟨e1, fsb, e2, h1, h2, rfl⟩ := Run.seq_ok h12
  obtain ⟨e3, fsc, e4, h3, h4, rfl⟩ := Run.seq_ok h34
  obtain ⟨rfl, rfl⟩ := Run.emit_eq h1
  obtain ⟨rfl, rfl⟩ := Run.emit_eq h4
  refine ⟨e2, e3, fsa, log_Event.mk args fmt file (some now) (.ptr stderr) line level,
    rfl, rfl, rfl, rfl, rfl, rfl, rfl, rfl, ?_, ?_, _, ?_, h3⟩
  · intro hc
    simpa [log_log_console, hc] using h2
  · intro hc
    simp only [log_log_console, hc, if_false] at h2
    exact (Run.emit_eq h2).1
  · rw [log_log_console_level]

/-! ## Consequences for a whole call -/

theorem filter_eq_nil_of_all_false {p : Effect → Bool} {es : List Effect}
    (h : ∀ e ∈ es, p e = false) : es.filter p = [] :=
  List.filter_eq_nil_iff.mpr (fun e he => by simp [h e he])

theorem lock_not_console (L : Logger) : ∀ e ∈ lock L, e.byConsole = false := by
  intro e he
  unfold lock at he
  split at he
  · simp only [List.mem_singleton] at he
    rw [he]; rfl
  · cases he

theorem unlock_not_console (L : Logger) : ∀ e ∈ unlock L, e.byConsole = false := by
  intro e he
  unfold unlock at he
  split at he
  · simp only [List.mem_singleton] at he
    rw [he]; rfl
  · cases he

theorem called_slots_lock (L : Logger) : called_slots (lock L) = [] := by
  unfold lock; split <;> rfl

theorem called_slots_unlock (L : Logger) : called_slots (unlock L) = [] := by
  unfold unlock; split <;> rfl

theorem called_slots_console {b : Build} {ev : log_Event} {fs fs1 : FS} {es : List Effect}
    (h : stdout_callback b ev fs = .ok (es, fs1)) : called_slots es = [] := by
  obtain ⟨name, msg, pre, f, -, -, -, rfl, -⟩ := stdout_callback_ok h
  rfl

theorem not_call_console {b : Build} {ev : log_Event} {fs fs1 : FS} {es : List Effect}
    (h : stdout_callback b ev fs = .ok (es, fs1)) : ∀ e ∈ es, e.isCall = false ∧ e.isLock = false := by
  obtain ⟨name, msg, pre, f, -, -, -, rfl, -⟩ := stdout_callback_ok h
  intro e he
  simp only [List.mem_cons, List.mem_singleton, List.not_mem_nil, or_false] at he
  rcases he with rfl | rfl | rfl | rfl <;> exact ⟨rfl, rfl⟩

/-- The slots a call of `log_log` invokes, read off the table: those the loop reaches
whose threshold the level meets. -/
theorem called_slots_log_log {b : Build} {L : Logger} {level : Int} {file : List Char}
    {line : Int} {fmt : List Char} {args : List Arg} {now : Tm} {fs fs2 : FS}
    {tr : List Effect} (h : log_log b L level file line fmt args now fs = .ok (tr, fs2)) :
    called_slots tr =
      (log_log_visited L MAX_CALLBACKS 0).filter (fun j => decide ((L.slot j).level ≤ level)) := by
  obtain ⟨con, sinks, fs1, ev0, rfl, -, -, -, -, -, -, -, hon, hoff, ev1, -, hloop⟩ := log_log_ok h
  obtain ⟨hc, -, -⟩ := log_log_loop_ok L level args now _ _ _ _ _ _ hloop
  have hcon : called_slots con = [] := by
    by_cases hen : L.quiet = false ∧ level ≥ L.level
    · exact called_slots_console (hon hen)
    · rw [hoff hen]; rfl
  simp [called_slots_append, called_slots_lock, called_slots_unlock, hcon, hc]

theorem due_slots_eq_visited (L : Logger) (level : Int) (hfront : L.ContiguousFront) :
    (log_log_visited L MAX_CALLBACKS 0).filter (fun j => decide ((L.slot j).level ≤ level)) =
      due_slots L level := by
  rw [log_log_visited_eq L hfront MAX_CALLBACKS 0 (by simp), due_slots, List.range_eq_range',
    List.filter_filter]
  congr 1
  funext j
  simp [Bool.and_comm]

theorem mem_due_slots (L : Logger) (level : Int) (i : Nat) :
    i ∈ due_slots L level ↔ i < MAX_CALLBACKS ∧ L.occupied i ∧ (L.slot i).level ≤ level := by
  simp [due_slots]

theorem nodup_due_slots (L : Logger) (level : Int) : (due_slots L level).Nodup :=
  (List.nodup_range _).filter _

theorem sorted_due_slots (L : Logger) (level : Int) :
    (due_slots L level).Pairwise (fun i j => i < j) :=
  (List.pairwise_lt_range _).filter _

theorem due_slots_config (L : Logger) (level : Int) (quiet : Bool) (minimum : Int) :
    due_slots { L with quiet := quiet, level := minimum } level = due_slots L level := rfl

/-- The calls of the lock hook in a run of `log_log` that returns. -/
theorem log_log_lock_shape {b : Build} {L : Logger} {level : Int} {file : List Char}
    {line : Int} {fmt : List Char} {args : List Arg} {now : Tm} {fs fs2 : FS}
    {tr : List Effect} (h : log_log b L level file line fmt args now fs = .ok (tr, fs2)) :
    ∃ mid, tr = lock L ++ mid ++ unlock L ∧ ∀ e ∈ mid, e.isLock = false := by
  obtain ⟨con, sinks, fs1, ev0, rfl, -, -, -, -, -, -, -, hon, hoff, ev1, -, hloop⟩ := log_log_ok h
  obtain ⟨-, hkind, -⟩ := log_log_loop_ok L level args now _ _ _ _ _ _ hloop
  refine ⟨con ++ sinks, by simp [List.append_assoc], ?_⟩
  intro e he
  rcases List.mem_append.mp he with hc | hs
  · by_cases hen : L.quiet = false ∧ level ≥ L.level
    · exact (not_call_console (hon hen) e hc).2
    · rw [hoff hen] at hc; cases hc
  · rcases hkind e hs with hk | hk
    · exact isLock_of_isCall hk
    · exact isLock_of_bySink hk

/-- The output of the console sink in a run of `log_log` that returns. -/
theorem log_log_console_shape {b : Build} {L : Logger} {level : Int} {file : List Char}
    {line : Int} {fmt : List Char} {args : List Arg} {now : Tm} {fs fs2 : FS}
    {tr : List Effect} (h : log_log b L level file line fmt args now fs = .ok (tr, fs2)) :
    ∃ con fs1 ev0, tr.filter Effect.byConsole = con.filter Effect.byConsole ∧
      ev0.level = level ∧ ev0.file = file ∧ ev0.line = line ∧ ev0.fmt = fmt ∧ ev0.ap = args ∧
      ev0.udata = .ptr stderr ∧
      ((L.quiet = false ∧ level ≥ L.level) → stdout_callback b ev0 fs = .ok (con, fs1)) ∧
      (¬ (L.quiet = false ∧ level ≥ L.level) → con = []) := by
  obtain ⟨con, sinks, fs1, ev0, rfl, h1, h2, h3, h4, h5, h6, -, hon, hoff, ev1, -, hloop⟩ :=
    log_log_ok h
  obtain ⟨-, hkind, -⟩ := log_log_loop_ok L level args now _ _ _ _ _ _ hloop
  refine ⟨con, fs1, ev0, ?_, h1, h2, h3, h4, h5, h6, hon, hoff⟩
  have hs : sinks.filter Effect.byConsole = [] :=
    filter_eq_nil_of_all_false (fun e he => by
      rcases hkind e he with hk | hk
      · exact byConsole_of_isCall hk
      · exact byConsole_of_bySink hk)
  simp [List.filter_append, filter_eq_nil_of_all_false (lock_not_console L),
    filter_eq_nil_of_all_false (unlock_not_console L), hs]

/-! ## Runs that return -/

theorem strftime_buf_time_ok (t : Tm) : ∃ buf, strftime_buf 16 "%H:%M:%S".toList t = .ok buf := by
  obtain ⟨buf, h, -⟩ := strftime_buf_time_no_newline t
  exact ⟨buf, h⟩

theorem strftime_buf_date_time_ok (t : Tm) :
    ∃ buf, strftime_buf 64 "%Y-%m-%d %H:%M:%S".toList t = .ok buf := by
  rw [strftime_buf, strftime_date_time]
  simp only
  split <;> exact ⟨_, rfl⟩

theorem stdout_args_ok (b : Build) (buf : List Char) (ev : log_Event)
    (h0 : 0 ≤ ev.level) (h5 : ev.level ≤ 5) :
    ∃ args pre, stdout_args b buf ev = .ok args ∧ vformat (stdout_format b) args = .ok pre := by
  unfold stdout_args stdout_format
  rw [index6_of_range level_strings h0 h5, index6_of_range level_colors h0 h5]
  by_cases hc : b.LOG_USE_COLOR = true
  · simp only [hc, if_true]
    exact ⟨_, _, rfl, vformat_color_head _ _ _ _ _⟩
  · have hplain : b.LOG_USE_COLOR = false := by simpa using hc
    simp only [hplain, Bool.false_eq_true, if_false]
    exact ⟨_, _, rfl, vformat_line_head _ _ _ _⟩

/-- The console sink returns, and leaves the file system alone, for a level of the
enumeration and a message that renders. -/
theorem stdout_callback_returns (b : Build) (ev : log_Event) (fs : FS) (t : Tm)
    (msg : List Char) (htime : ev.time = some t) (h0 : 0 ≤ ev.level) (h5 : ev.level ≤ 5)
    (hmsg : vformat ev.fmt ev.ap = .ok msg) (hudata : ev.udata = .ptr stderr) :
    ∃ es, stdout_callback b ev fs = .ok (es, fs) := by
  obtain ⟨buf, hbuf⟩ := strftime_buf_time_ok t
  obtain ⟨args, pre, hargs, hpre⟩ := stdout_args_ok b buf ev h0 h5
  have hfile : ev.udata.toFile = .ok (.handle stderr) := by
    rw [hudata]; rfl
  have hrun := write_line_handle .stdout_callback stderr (stdout_format b) args ev fs pre msg
    hpre hmsg
  have key : ∀ r, write_line .stdout_callback (.handle stderr) (stdout_format b) args ev fs =
      .ok r → stdout_callback b ev fs = .ok r := by
    intro r hr
    unfold stdout_callback
    simp only [htime, hbuf, hargs, hfile]
    exact hr
  exact ⟨_, key _ hrun⟩

/-- A sink that is ready returns, and does not change which paths can be opened. -/
theorem call_fn_returns (cb : Callback) (i : Nat) (ev : log_Event) (fs : FS) (t : Tm)
    (msg : List Char) (hready : sink_ready cb fs) (htime : ev.time = some t)
    (h0 : 0 ≤ ev.level) (h5 : ev.level ≤ 5) (hmsg : vformat ev.fmt ev.ap = .ok msg)
    (hudata : ev.udata = if cb.udata ≠ 0 then .ptr cb.udata else .save_str i cb.save_str) :
    ∃ es fs1, call_fn cb.fn ev fs = .ok (es, fs1) ∧ fs1.denied = fs.denied := by
  unfold sink_ready at hready
  cases hfn : cb.fn with
  | null => rw [hfn] at hready; exact absurd hready (by simp)
  | user id => exact ⟨[], fs, rfl, rfl⟩
  | file_callback =>
    rw [hfn] at hready
    have hp : cb.udata ≠ 0 := hready
    rw [if_pos hp] at hudata
    obtain ⟨buf, hbuf⟩ := strftime_buf_date_time_ok t
    have hname := index6_of_range level_strings h0 h5
    have hfile : ev.udata.toFile = .ok (.handle cb.udata) := by
      rw [hudata]; simp [Target.toFile, hp]
    have hrun := write_line_handle (.sink .file_callback) cb.udata "%s %-5s %s:%d: ".toList
      [.str buf, .str (level_strings.getD ev.level.toNat []), .str ev.file, .int ev.line] ev fs
      _ msg (vformat_line_head _ _ _ _) hmsg
    have key : ∀ r, write_line (.sink .file_callback) (.handle cb.udata)
        "%s %-5s %s:%d: ".toList
        [.str buf, .str (level_strings.getD ev.level.toNat []), .str ev.file, .int ev.line]
        ev fs = .ok r → file_callback ev fs = .ok r := by
      intro r hr
      unfold file_callback
      simp only [htime, hbuf, hname, hfile]
      exact hr
    exact ⟨_, fs, key _ hrun, rfl⟩
  | file_bypath_callback =>
    rw [hfn] at hready
    obtain ⟨hz, path, hpath, hopen⟩ := hready
    have hnz : ¬ cb.udata ≠ 0 := by simp [hz]
    rw [if_neg hnz] at hudata
    have hstr : ev.udata.toStr = .ok path := by
      rw [hudata]; exact hpath
    obtain ⟨buf, hbuf⟩ := strftime_buf_date_time_ok t
    have hname := index6_of_range level_strings h0 h5
    obtain ⟨fsa, hfopen, -, hden⟩ := fopen_append_denied fs path hopen
    obtain ⟨fsb, hwl, -, hden2⟩ := write_line_opened (.sink .file_bypath_callback) path
      "%s %-5s %s:%d: ".toList
      [.str buf, .str (level_strings.getD ev.level.toNat []), .str ev.file, .int ev.line] ev fsa
      _ msg (vformat_line_head _ _ _ _) hmsg
    have hseq := @Run.seq_eq_ok _ (fclose (.sink .file_bypath_callback) (.opened path)) _ _ fsb _
      [.close (.sink .file_bypath_callback) (.opened path)] hwl rfl
    have key : ∀ r, ((write_line (.sink .file_bypath_callback) (.opened path)
        "%s %-5s %s:%d: ".toList
        [.str buf, .str (level_strings.getD ev.level.toNat []), .str ev.file, .int ev.line]
        ev).seq (fclose (.sink .file_bypath_callback) (.opened path))) fsa = .ok r →
        file_bypath_callback ev fs = .ok r := by
      intro r hr
      unfold file_bypath_callback
      simp only [hstr, hfopen, htime, hbuf, hname]
      exact hr
    exact ⟨_, fsb, key _ hseq, by rw [hden2, hden]⟩

theorem sink_ready_of_denied {cb : Callback} {fs fs1 : FS} (h : sink_ready cb fs)
    (hden : fs1.denied = fs.denied) : sink_ready cb fs1 := by
  unfold sink_ready at h ⊢
  cases hfn : cb.fn with
  | null => rw [hfn] at h; exact h
  | user id => trivial
  | file_callback => rw [hfn] at h; exact h
  | file_bypath_callback =>
    rw [hfn] at h
    obtain ⟨hz, path, hpath, hopen⟩ := h
    exact ⟨hz, path, hpath, by rw [hden]; exact hopen⟩

/-- The dispatch loop returns when every occupied slot it can reach is ready. -/
theorem log_log_loop_returns (L : Logger) (level : Int) (args : List Arg) (now : Tm)
    (msg : List Char) (h0 : 0 ≤ level) (h5 : level ≤ 5) :
    ∀ (n i : Nat) (ev : log_Event) (fs : FS), ev.level = level →
      vformat ev.fmt args = .ok msg →
      (∀ j, i ≤ j → j < i + n → L.occupied j → sink_ready (L.slot j) fs) →
      ∃ es fs1, log_log_loop L level args now n i ev fs = .ok (es, fs1) ∧
        fs1.denied = fs.denied := by
  intro n
  induction n with
  | zero => intro i ev fs _ _ _; exact ⟨[], fs, rfl, rfl⟩
  | succ n ih =>
    intro i ev fs hlev hmsg hready
    unfold log_log_loop
    simp only
    by_cases hfree : (L.slot i).fn = .null
    · simp only [hfree, if_true]
      exact ⟨[], fs, rfl, rfl⟩
    · simp only [hfree, if_false]
      by_cases hdue : level ≥ (L.slot i).level
      · simp only [hdue, if_true]
        have hev1 : ∃ ev1 : log_Event, ev1 = { init_event ev (L.slot i) i now with ap := args } :=
          ⟨_, rfl⟩
        obtain ⟨ev1, hev1⟩ := hev1
        rw [← hev1]
        have hl1 : ev1.level = level := by
          rw [hev1, ← hlev]
          unfold init_event; simp only; split <;> split <;> rfl
        have hf1 : ev1.fmt = ev.fmt := by
          rw [hev1]
          unfold init_event; simp only; split <;> split <;> rfl
        have ha1 : ev1.ap = args := by rw [hev1]
        have ht1 : ∃ t, ev1.time = some t := by
          rw [hev1]
          unfold init_event
          simp only
          cases htime : ev.time with
          | none => split <;> exact ⟨now, by simp⟩
          | some t => split <;> exact ⟨t, by simp [htime]⟩
        obtain ⟨t, ht1⟩ := ht1
        have hu1 : ev1.udata = if (L.slot i).udata ≠ 0 then .ptr (L.slot i).udata
            else .save_str i (L.slot i).save_str := by
          rw [hev1]
          unfold init_event; simp only; split <;> rfl
        obtain ⟨es2, fsb, hcall, hden⟩ := call_fn_returns (L.slot i) i ev1 fs t msg
          (hready i (le_refl _) (by omega) hfree) ht1 (by rw [hl1]; exact h0)
          (by rw [hl1]; exact h5) (by rw [hf1, ha1]; exact hmsg) hu1
        obtain ⟨es3, fsc, hrest, hden3⟩ := ih (i + 1) ev1 fsb hl1 (by rw [hf1]; exact hmsg)
          (fun j hj1 hj2 hocc =>
            sink_ready_of_denied (hready j (by omega) (by omega) hocc) hden)
        have hcallev : Run.emit [Effect.call i (L.slot i).fn ev1] fs =
            .ok ([Effect.call i (L.slot i).fn ev1], fs) := rfl
        exact ⟨[Effect.call i (L.slot i).fn ev1] ++ (es2 ++ es3), fsc,
          Run.seq_eq_ok hcallev (Run.seq_eq_ok hcall hrest), by rw [hden3, hden]⟩
      · simp only [hdue, if_false]
        exact ih (i + 1) ev fs hlev hmsg (fun j hj1 hj2 hocc => hready j (by omega) (by omega) hocc)

/-- A call of `log_log` returns when the level is one of the enumeration, the message
renders, and every registered sink is ready on the file system. -/
theorem log_log_returns (b : Build) (L : Logger) (level : Int) (file : List Char) (line : Int)
    (fmt : List Char) (args : List Arg) (now : Tm) (fs : FS) (msg : List Char)
    (h0 : 0 ≤ level) (h5 : level ≤ 5) (hmsg : vformat fmt args = .ok msg)
    (hready : ∀ i, i < MAX_CALLBACKS → L.occupied i → sink_ready (L.slot i) fs) :
    ∃ tr fs2, log_log b L level file line fmt args now fs = .ok (tr, fs2) ∧
      fs2.denied = fs.denied := by
  unfold log_log
  by_cases hen : L.quiet = false ∧ level ≥ L.level
  · obtain ⟨con, hcon⟩ := stdout_callback_returns b
      (log_Event.mk args fmt file (some now) (.ptr stderr) line level) fs now msg rfl h0 h5 hmsg
      rfl
    obtain ⟨es, fs1, hloop, hden⟩ := log_log_loop_returns L level args now msg h0 h5
      MAX_CALLBACKS 0 (log_Event.mk args fmt file (some now) (.ptr stderr) line level) fs rfl
      hmsg (fun j _ hj hocc => hready j (by omega) hocc)
    have hlock : Run.emit (lock L) fs = .ok (lock L, fs) := rfl
    have hunlock : Run.emit (unlock L) fs1 = .ok (unlock L, fs1) := rfl
    have hall := Run.seq_eq_ok (Run.seq_eq_ok hlock hcon) (Run.seq_eq_ok hloop hunlock)
    refine ⟨lock L ++ con ++ (es ++ unlock L), fs1, ?_, hden⟩
    simp only [log_log_console, hen, and_self, if_true]
    exact hall
  · obtain ⟨es, fs1, hloop, hden⟩ := log_log_loop_returns L level args now msg h0 h5
      MAX_CALLBACKS 0 (log_Event.mk [] fmt file none (.ptr 0) line level) fs rfl
      hmsg (fun j _ hj hocc => hready j (by omega) hocc)
    have hlock : Run.emit (lock L) fs = .ok (lock L, fs) := rfl
    have hnone : Run.emit [] fs = .ok ([], fs) := rfl
    have hunlock : Run.emit (unlock L) fs1 = .ok (unlock L, fs1) := rfl
    have hall := Run.seq_eq_ok (Run.seq_eq_ok hlock hnone) (Run.seq_eq_ok hloop hunlock)
    refine ⟨lock L ++ [] ++ (es ++ unlock L), fs1, ?_, hden⟩
    simp only [log_log_console, hen, if_false]
    exact hall

/-! ## C1, C2, C4: what one call of `log_log` does -/

/-- C1. A call of `log_log` that returns has invoked exactly the registered sinks whose
threshold is at most the level of the event, each once and in slot order, each through
the function stored in its slot.  The list does not depend on the quiet flag or on the
global minimum level.  A sink registered at `LOG_INFO` is invoked for `LOG_INFO`,
`LOG_WARN`, `LOG_ERROR` and `LOG_FATAL` and not for `LOG_TRACE` or `LOG_DEBUG`.
(The table is one whose occupied slots form a contiguous front, as every table built
by registrations is.) -/
theorem log_log_invokes_exactly_the_due_sinks (b : Build) (L : Logger) (level : Int)
    (file : List Char) (line : Int) (fmt : List Char) (args : List Arg) (now : Tm)
    (fs fs2 : FS) (tr : List Effect) (hfront : L.ContiguousFront)
    (h : log_log b L level file line fmt args now fs = .ok (tr, fs2)) :
    called_slots tr = due_slots L level ∧
      (called_slots tr).Nodup ∧ (called_slots tr).Pairwise (fun i j => i < j) ∧
      (∀ i, i ∈ called_slots tr ↔
        i < MAX_CALLBACKS ∧ L.occupied i ∧ (L.slot i).level ≤ level) ∧
      (∀ i fn ev, Effect.call i fn ev ∈ tr → fn = (L.slot i).fn) ∧
      (∀ (quiet : Bool) (minimum : Int) (tr1 : List Effect) (fs3 : FS),
        log_log b { L with quiet := quiet, level := minimum } level file line fmt args now fs =
            .ok (tr1, fs3) →
          called_slots tr1 = called_slots tr) ∧
      (∀ i, i < MAX_CALLBACKS → L.occupied i → (L.slot i).level = LOG_INFO →
        (level ∈ [LOG_INFO, LOG_WARN, LOG_ERROR, LOG_FATAL] → i ∈ called_slots tr) ∧
          (level ∈ [LOG_TRACE, LOG_DEBUG] → i ∉ called_slots tr)) := by
  have hcalled : called_slots tr = due_slots L level := by
    rw [called_slots_log_log h, due_slots_eq_visited L level hfront]
  refine ⟨hcalled, ?_, ?_, ?_, ?_, ?_, ?_⟩
  · rw [hcalled]; exact nodup_due_slots L level
  · rw [hcalled]; exact sorted_due_slots L level
  · intro i
    rw [hcalled]; exact mem_due_slots L level i
  · intro i fn ev hmem
    obtain ⟨con, sinks, fs1, ev0, rfl, -, -, -, -, -, -, -, hon, hoff, ev1, -, hloop⟩ :=
      log_log_ok h
    obtain ⟨-, -, htarget⟩ := log_log_loop_ok L level args now _ _ _ _ _ _ hloop
    have hnotlock : ∀ l, Effect.call i fn ev ∈ lock l → False := by
      intro l hl
      unfold lock at hl
      split at hl
      · simp at hl
      · cases hl
    have hnotunlock : ∀ l, Effect.call i fn ev ∈ unlock l → False := by
      intro l hl
      unfold unlock at hl
      split at hl
      · simp at hl
      · cases hl
    simp only [List.mem_append] at hmem
    rcases hmem with (hl | hc) | hs | hu
    · exact absurd hl (hnotlock L)
    · by_cases hen : L.quiet = false ∧ level ≥ L.level
      · have := (not_call_console (hon hen) _ hc).1
        simp [Effect.isCall] at this
      · rw [hoff hen] at hc; cases hc
    · exact (htarget i fn ev hs).1
    · exact absurd hu (hnotunlock L)
  · intro quiet minimum tr1 fs3 h1
    have hfront1 : ({ L with quiet := quiet, level := minimum } : Logger).ContiguousFront :=
      hfront
    rw [hcalled, called_slots_log_log h1, due_slots_eq_visited _ level hfront1]
    rfl
  · intro i hi hocc hinfo
    rw [hcalled]
    constructor
    · intro hlevel
      refine (mem_due_slots L level i).mpr ⟨hi, hocc, ?_⟩
      rw [hinfo]
      simp only [List.mem_cons, List.mem_singleton, List.not_mem_nil, or_false] at hlevel
      rcases hlevel with rfl | rfl | rfl | rfl <;> decide
    · intro hlevel hmem
      have hle := ((mem_due_slots L level i).mp hmem).2.2
      rw [hinfo] at hle
      simp only [List.mem_cons, List.mem_singleton, List.not_mem_nil, or_false] at hlevel
      rcases hlevel with rfl | rfl <;> exact absurd hle (by decide)

theorem sample_front : sample_logger.ContiguousFront := by
  unfold Logger.ContiguousFront
  decide

theorem sample_run :
    log_log plain_build sample_logger LOG_WARN "x.c".toList 11 "n=%d".toList [.int 5]
      sample_time sample_fs = .ok (sample_trace, sample_fs) := by
  decide

theorem written_by_console_filter (es : List Effect) :
    written_by .stdout_callback (es.filter Effect.byConsole) = written_by .stdout_callback es := by
  induction es with
  | nil => rfl
  | cons e es ih =>
    cases e with
    | write w f text =>
      cases w with
      | stdout_callback => simp [List.filter, Effect.byConsole, written_by, ih]
      | sink fn => simp [List.filter, Effect.byConsole, written_by, ih]
    | flush w f =>
      cases w with
      | stdout_callback => simp [List.filter, Effect.byConsole, written_by, ih]
      | sink fn => simp [List.filter, Effect.byConsole, written_by, ih]
    | close w f =>
      cases w with
      | stdout_callback => simp [List.filter, Effect.byConsole, written_by, ih]
      | sink fn => simp [List.filter, Effect.byConsole, written_by, ih]
    | lock a c d => simp [List.filter, Effect.byConsole, written_by, ih]
    | call a c d => simp [List.filter, Effect.byConsole, written_by, ih]

/-- C2. A call of `log_log` that returns has, when quiet is off and the level is at
least the configured minimum, made `stdout_callback` write exactly one line to
`stderr`: a head, the rendered message and one newline, then a flush.  The head holds
the upper-case name of the level, the file name and the line number, and the text has
no newline besides the final one and those the caller put into the file name or the
message.  When quiet is on or the level is below the minimum, `stdout_callback` has
written nothing, whatever the sink table holds. -/
theorem console_sink_writes_one_line_iff_enabled (b : Build) (L : Logger) (level : Int)
    (file : List Char) (line : Int) (fmt : List Char) (args : List Arg) (now : Tm)
    (fs fs2 : FS) (tr : List Effect)
    (h : log_log b L level file line fmt args now fs = .ok (tr, fs2)) :
    ((L.quiet = false ∧ L.level ≤ level) →
        ∃ name msg head, log_level_string level = .ok name ∧ vformat fmt args = .ok msg ∧
          tr.filter Effect.byConsole =
            [.write .stdout_callback (.handle stderr) head,
              .write .stdout_callback (.handle stderr) msg,
              .write .stdout_callback (.handle stderr) ['\n'],
              .flush .stdout_callback (.handle stderr)] ∧
          written_by .stdout_callback tr = head ++ msg ++ ['\n'] ∧
          name <:+: head ∧ file <:+: head ∧ intDec line <:+: head ∧
          List.count '\n' (written_by .stdout_callback tr) =
            List.count '\n' file + List.count '\n' msg + 1) ∧
      ((L.quiet = true ∨ level < L.level) →
        tr.filter Effect.byConsole = [] ∧ written_by .stdout_callback tr = []) := by
  obtain ⟨con, fs1, ev0, hfilter, h1, h2, h3, h4, h5, h6, hon, hoff⟩ := log_log_console_shape h
  constructor
  · intro hen
    obtain ⟨name, msg, head, f, hname, hmsg, hf, rfl, hi1, hi2, hi3, hcount⟩ :=
      stdout_callback_ok (hon ⟨hen.1, hen.2⟩)
    rw [h6] at hf
    have hfe : f = .handle stderr := by
      simp only [Target.toFile, stderr] at hf
      cases hf
      rfl
    subst hfe
    rw [h1] at hname
    rw [h4, h5] at hmsg
    rw [h2] at hi2 hcount
    rw [h3] at hi3
    have hfall : tr.filter Effect.byConsole =
        [.write .stdout_callback (.handle stderr) head,
          .write .stdout_callback (.handle stderr) msg,
          .write .stdout_callback (.handle stderr) ['\n'],
          .flush .stdout_callback (.handle stderr)] := by
      rw [hfilter]; rfl
    have hwritten : written_by .stdout_callback tr = head ++ msg ++ ['\n'] := by
      rw [← written_by_console_filter, hfall]
      simp [written_by]
    refine ⟨name, msg, head, hname, hmsg, hfall, hwritten, hi1, hi2, hi3, ?_⟩
    rw [hwritten]
    simp [List.count_append, hcount, Nat.add_assoc]
  · intro hdis
    have hoff1 : ¬ (L.quiet = false ∧ level ≥ L.level) := by
      rintro ⟨hq, hl⟩
      rcases hdis with hd | hd
      · rw [hq] at hd; cases hd
      · exact absurd hl (not_le.mpr hd)
    have hnil : tr.filter Effect.byConsole = [] := by
      rw [hfilter, hoff hoff1]; rfl
    exact ⟨hnil, by rw [← written_by_console_filter, hnil]; rfl⟩

theorem console_sink_writes_one_line_iff_enabled_witness :
    log_log plain_build sample_logger LOG_WARN "x.c".toList 11 "n=%d".toList [.int 5]
        sample_time sample_fs = .ok (sample_trace, sample_fs) ∧
      (sample_logger.quiet = false ∧ sample_logger.level ≤ LOG_WARN) ∧
      written_by .stdout_callback sample_trace = "07:08:09 WARN  x.c:11: n=5\n".toList ∧
      (∃ name msg head, log_level_string LOG_WARN = .ok name ∧
        vformat "n=%d".toList [.int 5] = .ok msg ∧
        sample_trace.filter Effect.byConsole =
          [.write .stdout_callback (.handle stderr) head,
            .write .stdout_callback (.handle stderr) msg,
            .write .stdout_callback (.handle stderr) ['\n'],
            .flush .stdout_callback (.handle stderr)] ∧
        written_by .stdout_callback sample_trace = head ++ msg ++ ['\n'] ∧
        name <:+: head ∧ "x.c".toList <:+: head ∧ intDec 11 <:+: head ∧
        List.count '\n' (written_by .stdout_callback sample_trace) =
          List.count '\n' "x.c".toList + List.count '\n' msg + 1) :=
  ⟨sample_run, by decide, by decide,
    (console_sink_writes_one_line_iff_enabled plain_build sample_logger LOG_WARN "x.c".toList
      11 "n=%d".toList [.int 5] sample_time sample_fs sample_fs sample_trace sample_run).1
      (by decide)⟩

/-- C4. In a call of `log_log` that returns, an installed lock hook is called exactly
twice: with `true` as the first effect of the call, before the console output and
before every sink, and with `false` as the last effect, after the last sink; nothing
between the two is a hook call.  This does not depend on the level, the table or on
whether anything is written.  Without a hook there is no hook call. -/
theorem lock_hook_brackets_log_log (b : Build) (L : Logger) (level : Int)
    (file : List Char) (line : Int) (fmt : List Char) (args : List Arg) (now : Tm)
    (fs fs2 : FS) (tr : List Effect)
    (h : log_log b L level file line fmt args now fs = .ok (tr, fs2)) :
    (L.lock ≠ 0 →
        ∃ mid, tr = .lock L.lock true L.udata :: (mid ++ [.lock L.lock false L.udata]) ∧
          (∀ e ∈ mid, e.isLock = false) ∧
          tr.filter Effect.isLock =
            [.lock L.lock true L.udata, .lock L.lock false L.udata] ∧
          tr.filter (fun e => e.byConsole || e.isCall) =
            mid.filter (fun e => e.byConsole || e.isCall)) ∧
      (L.lock = 0 → ∀ e ∈ tr, e.isLock = false) := by
  obtain ⟨mid, rfl, hmid⟩ := log_log_lock_shape h
  constructor
  · intro hl
    refine ⟨mid, by simp [lock, unlock, hl], hmid, ?_, ?_⟩
    · have hm : mid.filter Effect.isLock = [] := filter_eq_nil_of_all_false hmid
      simp [lock, unlock, hl, List.filter_append, hm, List.filter, Effect.isLock]
    · simp [lock, unlock, hl, List.filter_append, List.filter, Effect.byConsole, Effect.isCall]
  · intro hl e he
    simp only [lock, unlock, hl, ne_eq, not_true_eq_false, if_false, List.nil_append,
      List.append_nil] at he
    exact hmid e he

theorem lock_hook_brackets_log_log_witness :
    log_log plain_build sample_logger LOG_WARN "x.c".toList 11 "n=%d".toList [.int 5]
        sample_time sample_fs = .ok (sample_trace, sample_fs) ∧
      sample_logger.lock ≠ 0 ∧
      (∃ mid, sample_trace = .lock sample_logger.lock true sample_logger.udata ::
          (mid ++ [.lock sample_logger.lock false sample_logger.udata]) ∧
        (∀ e ∈ mid, e.isLock = false) ∧
        sample_trace.filter Effect.isLock =
          [.lock sample_logger.lock true sample_logger.udata,
            .lock sample_logger.lock false sample_logger.udata] ∧
        sample_trace.filter (fun e => e.byConsole || e.isCall) =
          mid.filter (fun e => e.byConsole || e.isCall)) :=
  ⟨sample_run, by decide,
    (lock_hook_brackets_log_log plain_build sample_logger LOG_WARN "x.c".toList 11
      "n=%d".toList [.int 5] sample_time sample_fs sample_fs sample_trace sample_run).1
      (by decide)⟩

theorem log_log_invokes_exactly_the_due_sinks_witness :
    sample_logger.ContiguousFront ∧
      log_log plain_build sample_logger LOG_WARN "x.c".toList 11 "n=%d".toList
        [.int 5] sample_time sample_fs = .ok (sample_trace, sample_fs) ∧
      called_slots sample_trace = due_slots sample_logger LOG_WARN ∧
      called_slots sample_trace = [0] :=
  ⟨sample_front, sample_run,
    (log_log_invokes_exactly_the_due_sinks plain_build sample_logger LOG_WARN "x.c".toList 11
      "n=%d".toList [.int 5] sample_time sample_fs sample_fs sample_trace sample_front
      sample_run).1, by decide⟩

/-! ## C3, C9, C10: registration -/

/-- C3. Starting from an empty sink table, 32 registrations through `log_add_callback`
with a function that is not `NULL` (and stored strings that fit their array, so that
every call is defined) all return 0, and a further registration returns -1 and leaves
the logger exactly as it was. -/
theorem first_32_registrations_succeed_next_fails (L : Logger) (regs : List Registration)
    (extra : Registration) (hsize : L.WellSized) (hempty : L.EmptyTable)
    (hlen : regs.length = MAX_CALLBACKS) (hfn : ∀ r ∈ regs, r.fn ≠ .null)
    (hfit : ∀ r ∈ regs, r.Fits) :
    ∃ L32, register_all L regs = .ok (L32, List.replicate MAX_CALLBACKS 0) ∧
      log_add_callback L32 extra.fn extra.udata extra.level extra.save_str = .ok (L32, -1) := by
  obtain ⟨L32, hreg, -, hocc, -⟩ :=
    register_all_fills regs L 0 hsize (by omega) (fun j hj => by omega)
      (fun j _ hj => hempty j hj) hfn hfit
  refine ⟨L32, by rw [hreg, hlen], ?_⟩
  exact log_add_callback_full L32 extra (fun j hj => hocc j (by omega))

theorem first_32_registrations_succeed_next_fails_witness :
    Logger.init.WellSized ∧ Logger.init.EmptyTable ∧
      (List.replicate 32 sample_registration).length = MAX_CALLBACKS ∧
      (∀ r ∈ List.replicate 32 sample_registration, r.fn ≠ .null) ∧
      (∀ r ∈ List.replicate 32 sample_registration, r.Fits) ∧
      ∃ L32, register_all Logger.init (List.replicate 32 sample_registration) =
          .ok (L32, List.replicate MAX_CALLBACKS 0) ∧
        log_add_callback L32 sample_named_registration.fn sample_named_registration.udata
          sample_named_registration.level sample_named_registration.save_str = .ok (L32, -1) :=
  have hfn : ∀ r ∈ List.replicate 32 sample_registration, r.fn ≠ .null := fun r hr => by
    rw [List.eq_of_mem_replicate hr]; decide
  have hfit : ∀ r ∈ List.replicate 32 sample_registration, r.Fits := fun r hr => by
    rw [List.eq_of_mem_replicate hr]
    intro s hs
    cases hs
  ⟨wellSized_init, emptyTable_init, rfl, hfn, hfit,
    first_32_registrations_succeed_next_fails Logger.init (List.replicate 32 sample_registration)
      sample_named_registration wellSized_init emptyTable_init rfl hfn hfit⟩

/-- C9. The occupied slots of the sink table form a contiguous front: this holds for
the initial table and every call of `log_add_callback` that returns preserves it (and
the size of the table).  A call that returns 0 has written the new registration into
the first free slot, the one right after the front, and has left every other slot and
the rest of the logger unchanged.  So the loop of `log_log`, which stops at the first
free slot, reaches every occupied slot. -/
theorem occupied_slots_form_a_contiguous_front :
    (Logger.init.WellSized ∧ Logger.init.EmptyTable ∧ Logger.init.ContiguousFront) ∧
      (∀ (L L1 : Logger) (fn : LogFn) (udata : Ptr) (level : Int) (name : Option (List Char))
          (rc : Int), L.WellSized → L.ContiguousFront →
          log_add_callback L fn udata level name = .ok (L1, rc) →
          L1.WellSized ∧ L1.ContiguousFront) ∧
      (∀ (L L1 : Logger) (fn : LogFn) (udata : Ptr) (level : Int) (name : Option (List Char)),
          L.WellSized → log_add_callback L fn udata level name = .ok (L1, 0) →
          ∃ i cb, i < MAX_CALLBACKS ∧ (∀ j, j < i → L.occupied j) ∧ ¬ L.occupied i ∧
            make_callback fn udata level name = .ok cb ∧
            cb.fn = fn ∧ cb.udata = udata ∧ cb.level = level ∧
            L1.slot i = cb ∧ (∀ j, j ≠ i → L1.slot j = L.slot j) ∧
            L1.udata = L.udata ∧ L1.lock = L.lock ∧ L1.level = L.level ∧ L1.quiet = L.quiet ∧
            (fn ≠ .null → L1.occupied i)) ∧
      (∀ (L : Logger), L.ContiguousFront →
          log_log_visited L MAX_CALLBACKS 0 =
              (List.range MAX_CALLBACKS).filter (fun i => decide (L.occupied i)) ∧
            ∀ i, i < MAX_CALLBACKS → L.occupied i → i ∈ log_log_visited L MAX_CALLBACKS 0) := by
  refine ⟨⟨wellSized_init, emptyTable_init, contiguousFront_of_empty emptyTable_init⟩,
    ?_, ?_, ?_⟩
  · intro L L1 fn udata level name rc hsize hfront hadd
    rcases log_add_callback_ok_cases hadd with ⟨-, rfl, -⟩ | ⟨i, cb, -, hi, hfree, hbefore, hcb, rfl⟩
    · exact ⟨hsize, hfront⟩
    · refine ⟨wellSized_set L i cb hsize, ?_⟩
      intro a ha c hc hocc
      by_cases hai : a = i
      · subst hai
        have : L.occupied c := hbefore c hc
        simpa [Logger.occupied, slot_set_ne L a c cb (by omega)] using this
      · have hoccL : L.occupied a := by
          simpa [Logger.occupied, slot_set_ne L i a cb (Ne.symm hai)] using hocc
        by_cases hci : c = i
        · subst hci
          exact absurd hfree (hfront a ha c hc hoccL)
        · have : L.occupied c := hfront a ha c hc hoccL
          simpa [Logger.occupied, slot_set_ne L i c cb (Ne.symm hci)] using this
  · intro L L1 fn udata level name hsize hadd
    rcases log_add_callback_ok_cases hadd with ⟨h0, -, -⟩ | ⟨i, cb, -, hi, hfree, hbefore, hcb, rfl⟩
    · exact absurd h0 (by decide)
    · have hil : i < L.callbacks.length := by rw [hsize]; exact hi
      obtain ⟨f1, f2, f3⟩ := make_callback_fields hcb
      refine ⟨i, cb, hi, hbefore, fun h => h hfree, hcb, f1, f2, f3, slot_set_self L i cb hil,
        fun j hj => slot_set_ne L i j cb (Ne.symm hj), rfl, rfl, rfl, rfl, ?_⟩
      intro hfn
      simpa [Logger.occupied, slot_set_self L i cb hil, f1] using hfn
  · intro L hfront
    have hv := log_log_visited_eq L hfront MAX_CALLBACKS 0 (by simp)
    rw [← List.range_eq_range'] at hv
    refine ⟨hv, fun i hi hocc => ?_⟩
    rw [hv]
    simp [hi, hocc]

/-- C10. When the table has a free slot and a string is given, the copy loop of
`log_add_callback` stays inside the 256 cells of `save_str` exactly when the string has
at most 255 characters before its terminator: then the call returns 0 (the
out-of-bounds branch is not reached), and for a string of 256 characters or more the
copy stores past the end of the array. -/
theorem save_str_copy_in_bounds_iff (L : Logger) (fn : LogFn) (udata : Ptr) (level : Int)
    (s : List Char) (hfree : ∃ i, i < MAX_CALLBACKS ∧ (L.slot i).fn = .null) :
    (log_add_callback L fn udata level (some s) ≠ .error .outOfBounds ↔ strlen s ≤ 255) ∧
      (strlen s ≤ 255 → ∃ L1, log_add_callback L fn udata level (some s) = .ok (L1, 0)) ∧
      (256 ≤ strlen s → log_add_callback L fn udata level (some s) = .error .outOfBounds) ∧
      (copy_save_str s 0 (List.replicate SAVE_STR_SIZE none) = .error .outOfBounds ↔
        256 ≤ strlen s) := by
  obtain ⟨i0, hi0, hnull⟩ := hfree
  have hres : ∃ j, log_add_callback L fn udata level (some s) =
      (make_callback fn udata level (some s)).map
        (fun cb => ({ L with callbacks := L.callbacks.set j cb }, (0 : Int))) := by
    rcases log_add_callback_spec L fn udata level (some s) with ⟨hall, -⟩ | ⟨j, -, -, -, hres⟩
    · exact absurd hnull (hall i0 hi0)
    · exact ⟨j, hres⟩
  obtain ⟨j, hres⟩ := hres
  have hok : strlen s ≤ 255 → ∃ L1, log_add_callback L fn udata level (some s) = .ok (L1, 0) := by
    intro hs
    obtain ⟨buf, hb, -⟩ := make_callback_fits fn udata level s (by unfold SAVE_STR_SIZE; omega)
    exact ⟨_, by rw [hres, hb]; rfl⟩
  have hbad : 256 ≤ strlen s →
      log_add_callback L fn udata level (some s) = .error .outOfBounds := by
    intro hs
    rw [hres, make_callback_overflow fn udata level s (by unfold SAVE_STR_SIZE; omega)]
    rfl
  refine ⟨⟨fun hne => ?_, fun hs => ?_⟩, hok, hbad, ⟨fun he => ?_, fun hs => ?_⟩⟩
  · by_contra hlong
    exact hne (hbad (by omega))
  · obtain ⟨L1, h1⟩ := hok hs
    rw [h1]
    simp
  · by_contra hshort
    obtain ⟨out, hout, -⟩ := copy_save_str_fits s 0 (List.replicate SAVE_STR_SIZE none)
      (by simp [SAVE_STR_SIZE]; omega)
    rw [hout] at he
    cases he
  · exact copy_save_str_overflow s 0 _ (by simp [SAVE_STR_SIZE]; omega)

theorem save_str_copy_in_bounds_iff_witness :
    (∃ i, i < MAX_CALLBACKS ∧ (Logger.init.slot i).fn = .null) ∧
      (strlen "app".toList ≤ 255 →
        ∃ L1, log_add_callback Logger.init (.user 3) 0 LOG_WARN (some "app".toList) =
          .ok (L1, 0)) ∧
      (256 ≤ strlen (List.replicate 256 'a') →
        log_add_callback Logger.init (.user 3) 0 LOG_WARN (some (List.replicate 256 'a')) =
          .error .outOfBounds) :=
  ⟨⟨0, by decide, by decide⟩,
    (save_str_copy_in_bounds_iff Logger.init (.user 3) 0 LOG_WARN "app".toList
      ⟨0, by decide, by decide⟩).2.1,
    (save_str_copy_in_bounds_iff Logger.init (.user 3) 0 LOG_WARN (List.replicate 256 'a')
      ⟨0, by decide, by decide⟩).2.2.1⟩

/-! ## C8: the target a sink receives -/

theorem sample_named_add :
    log_add_callback Logger.init sample_named_registration.fn sample_named_registration.udata
      sample_named_registration.level sample_named_registration.save_str =
        .ok (sample_named_logger, 0) := by
  decide

theorem sample_named_run :
    log_log plain_build sample_named_logger LOG_WARN "x.c".toList 11 "n=%d".toList [.int 5]
      sample_time sample_fs = .ok (sample_named_trace, sample_fs) := by
  decide

theorem occupied_slots_form_a_contiguous_front_witness :
    (Logger.init.WellSized ∧
      log_add_callback Logger.init sample_named_registration.fn
        sample_named_registration.udata sample_named_registration.level
        sample_named_registration.save_str = .ok (sample_named_logger, 0)) ∧
      ∃ i cb, i < MAX_CALLBACKS ∧ (∀ j, j < i → Logger.init.occupied j) ∧
        ¬ Logger.init.occupied i ∧
        make_callback sample_named_registration.fn sample_named_registration.udata
          sample_named_registration.level sample_named_registration.save_str = .ok cb ∧
        cb.fn = sample_named_registration.fn ∧ cb.udata = sample_named_registration.udata ∧
        cb.level = sample_named_registration.level ∧
        sample_named_logger.slot i = cb ∧
        (∀ j, j ≠ i → sample_named_logger.slot j = Logger.init.slot j) ∧
        sample_named_logger.udata = Logger.init.udata ∧
        sample_named_logger.lock = Logger.init.lock ∧
        sample_named_logger.level = Logger.init.level ∧
        sample_named_logger.quiet = Logger.init.quiet ∧
        (sample_named_registration.fn ≠ .null → sample_named_logger.occupied i) :=
  ⟨⟨wellSized_init, sample_named_add⟩,
    occupied_slots_form_a_contiguous_front.2.2.1 Logger.init sample_named_logger
      sample_named_registration.fn sample_named_registration.udata
      sample_named_registration.level sample_named_registration.save_str wellSized_init
      sample_named_add⟩

theorem slot_log_set_lock (L : Logger) (fn udata : Ptr) (i : Nat) :
    (log_set_lock L fn udata).slot i = L.slot i := rfl

theorem slot_log_set_level (L : Logger) (level : Int) (i : Nat) :
    (log_set_level L level).slot i = L.slot i := rfl

theorem slot_log_set_quiet (L : Logger) (enable : Bool) (i : Nat) :
    (log_set_quiet L enable).slot i = L.slot i := rfl

/-- No configuration call changes an occupied slot (or the size of the table). -/
theorem apply_ops_keeps_occupied (ops : List Op) :
    ∀ (L L2 : Logger) (i : Nat), L.WellSized → L.occupied i → apply_ops L ops = .ok L2 →
      L2.slot i = L.slot i := by
  induction ops with
  | nil =>
    intro L L2 i _ _ h
    cases h
    rfl
  | cons op ops ih =>
    intro L L2 i hsize hocc h
    cases op with
    | set_lock fn udata =>
      exact ih (log_set_lock L fn udata) L2 i hsize hocc h
    | set_level level =>
      exact ih (log_set_level L level) L2 i hsize hocc h
    | set_quiet enable =>
      exact ih (log_set_quiet L enable) L2 i hsize hocc h
    | add_callback r =>
      simp only [apply_ops] at h
      cases hadd : log_add_callback L r.fn r.udata r.level r.save_str with
      | error f => rw [hadd] at h; cases h
      | ok p =>
        obtain ⟨L1, rc⟩ := p
        rw [hadd] at h
        simp only at h
        rcases log_add_callback_ok_cases hadd with
          ⟨-, rfl, -⟩ | ⟨j, cb, -, hj, hfree, -, -, rfl⟩
        · exact ih L1 L2 i hsize hocc h
        · have hji : j ≠ i := by
            rintro rfl
            exact hocc hfree
          have hslot := slot_set_ne L j i cb hji
          have hocc1 : ({ L with callbacks := L.callbacks.set j cb } : Logger).occupied i := by
            simpa [Logger.occupied, hslot] using hocc
          rw [ih _ L2 i (wellSized_set L j cb hsize) hocc1 h, hslot]

/-- Every invocation in a run of `log_log` that returns carries the target of its
slot. -/
theorem log_log_call_target {b : Build} {L : Logger} {level : Int} {file : List Char}
    {line : Int} {fmt : List Char} {args : List Arg} {now : Tm} {fs fs2 : FS}
    {tr : List Effect} (h : log_log b L level file line fmt args now fs = .ok (tr, fs2))
    {i : Nat} {fn : LogFn} {ev : log_Event} (hmem : Effect.call i fn ev ∈ tr) :
    fn = (L.slot i).fn ∧ ev.udata = L.target i := by
  obtain ⟨con, sinks, fs1, ev0, rfl, -, -, -, -, -, -, -, hon, hoff, ev1, -, hloop⟩ :=
    log_log_ok h
  obtain ⟨-, -, htarget⟩ := log_log_loop_ok L level args now _ _ _ _ _ _ hloop
  simp only [List.mem_append] at hmem
  rcases hmem with (hl | hc) | hs | hu
  · unfold lock at hl
    split at hl
    · simp at hl
    · cases hl
  · by_cases hen : L.quiet = false ∧ level ≥ L.level
    · have := (not_call_console (hon hen) _ hc).1
      simp [Effect.isCall] at this
    · rw [hoff hen] at hc; cases hc
  · exact ⟨(htarget i fn ev hs).1, (htarget i fn ev hs).2.1⟩
  · unfold unlock at hu
    split at hu
    · simp at hu
    · cases hu

/-- C8. After a registration `log_add_callback(fn, payload, level, name)` that returned
0 (with `fn` not `NULL`), whatever configuration calls follow, every invocation of
that sink by `log_log` goes through `fn` and passes, when the payload is not `NULL`,
exactly the payload, and when the payload is `NULL` and a name was given, the address
of the stored string of its own slot, whose contents read back as the name (which then
has at most 255 characters).  So the target is selected by whether the payload is
`NULL`. -/
theorem sink_target_is_payload_or_stored_string (L L1 : Logger) (fn : LogFn) (udata : Ptr)
    (level : Int) (name : Option (List Char)) (hsize : L.WellSized) (hfn : fn ≠ .null)
    (hadd : log_add_callback L fn udata level name = .ok (L1, 0)) :
    ∃ i, i < MAX_CALLBACKS ∧ ¬ L.occupied i ∧ L1.occupied i ∧
      ∀ (ops : List Op) (L2 : Logger), apply_ops L1 ops = .ok L2 →
        ∀ (b : Build) (lvl : Int) (file : List Char) (line : Int) (fmt : List Char)
          (args : List Arg) (now : Tm) (fs fs2 : FS) (tr : List Effect),
          log_log b L2 lvl file line fmt args now fs = .ok (tr, fs2) →
          ∀ (fn1 : LogFn) (ev : log_Event), Effect.call i fn1 ev ∈ tr →
            fn1 = fn ∧
              (udata ≠ 0 → ev.udata = .ptr udata) ∧
              (udata = 0 → ∀ s, name = some s →
                strlen s ≤ 255 ∧
                  ∃ buf, ev.udata = .save_str i buf ∧ read_str buf = .ok (c_str s)) := by
  rcases log_add_callback_ok_cases hadd with ⟨h0, -, -⟩ | ⟨i, cb, -, hi, hfree, -, hcb, rfl⟩
  · exact absurd h0 (by decide)
  · have hil : i < L.callbacks.length := by rw [hsize]; exact hi
    obtain ⟨f1, f2, f3⟩ := make_callback_fields hcb
    have hslot1 := slot_set_self L i cb hil
    have hocc1 : ({ L with callbacks := L.callbacks.set i cb } : Logger).occupied i := by
      simpa [Logger.occupied, hslot1, f1] using hfn
    refine ⟨i, hi, fun h => h hfree, hocc1, ?_⟩
    intro ops L2 hops b lvl file line fmt args now fs fs2 tr hrun fn1 ev hmem
    have hslot2 : L2.slot i = cb := by
      rw [apply_ops_keeps_occupied ops _ L2 i (wellSized_set L i cb hsize) hocc1 hops, hslot1]
    obtain ⟨hfn1, htarget⟩ := log_log_call_target hrun hmem
    rw [hslot2] at hfn1
    unfold Logger.target at htarget
    rw [hslot2, f2] at htarget
    refine ⟨by rw [hfn1, f1], ?_, ?_⟩
    · intro hne
      simpa [hne] using htarget
    · intro hz s hs
      subst hs
      have hlen : strlen s < SAVE_STR_SIZE := by
        by_contra hlong
        rw [make_callback_overflow fn udata level s (by omega)] at hcb
        cases hcb
      obtain ⟨buf, hb, hread⟩ := make_callback_fits fn udata level s hlen
      rw [hb] at hcb
      cases hcb
      refine ⟨by unfold SAVE_STR_SIZE at hlen; omega, buf, ?_, hread⟩
      simpa [hz] using htarget

theorem sink_target_is_payload_or_stored_string_witness :
    Logger.init.WellSized ∧ sample_named_registration.fn ≠ .null ∧
      log_add_callback Logger.init sample_named_registration.fn
        sample_named_registration.udata sample_named_registration.level
        sample_named_registration.save_str = .ok (sample_named_logger, 0) ∧
      (∃ i, i < MAX_CALLBACKS ∧ ¬ Logger.init.occupied i ∧ sample_named_logger.occupied i ∧
        ∀ (ops : List Op) (L2 : Logger), apply_ops sample_named_logger ops = .ok L2 →
          ∀ (b : Build) (lvl : Int) (file : List Char) (line : Int) (fmt : List Char)
            (args : List Arg) (now : Tm) (fs fs2 : FS) (tr : List Effect),
            log_log b L2 lvl file line fmt args now fs = .ok (tr, fs2) →
            ∀ (fn1 : LogFn) (ev : log_Event), Effect.call i fn1 ev ∈ tr →
              fn1 = sample_named_registration.fn ∧
                (sample_named_registration.udata ≠ 0 →
                  ev.udata = .ptr sample_named_registration.udata) ∧
                (sample_named_registration.udata = 0 →
                  ∀ s, sample_named_registration.save_str = some s →
                    strlen s ≤ 255 ∧
                      ∃ buf, ev.udata = .save_str i buf ∧ read_str buf = .ok (c_str s))) ∧
      log_log plain_build sample_named_logger LOG_WARN "x.c".toList 11 "n=%d".toList [.int 5]
        sample_time sample_fs = .ok (sample_named_trace, sample_fs) ∧
      Effect.call 0 (.user 3) (sample_event (.save_str 0 sample_named_sink.save_str)) ∈
        sample_named_trace ∧
      read_str sample_named_sink.save_str = .ok "app".toList :=
  ⟨wellSized_init, by decide, sample_named_add,
    sink_target_is_payload_or_stored_string Logger.init sample_named_logger
      sample_named_registration.fn sample_named_registration.udata
      sample_named_registration.level sample_named_registration.save_str wellSized_init
      (by decide) sample_named_add,
    sample_named_run, by decide, by decide⟩

/-! ## C5: the line layouts -/

theorem level_name_of_range {level : Int} (h0 : 0 ≤ level) (h5 : level ≤ 5) :
    ∃ name, log_level_string level = .ok name ∧ name ∈ level_strings ∧
      (layout_level name).length = 5 := by
  refine ⟨_, index6_of_range level_strings h0 h5, ?_, ?_⟩
  · have hn : level.toNat < 6 := by omega
    generalize level.toNat = n at hn
    interval_cases n <;> decide
  · have hn : level.toNat < 6 := by omega
    generalize level.toNat = n at hn
    interval_cases n <;> decide

theorem layout_line_eq (stamp name file : List Char) (line : Int) (msg : List Char) :
    (stamp ++ ' ' :: (name ++ List.replicate (5 - name.length) ' ') ++ ' ' :: file ++
        ':' :: intDec line ++ [':', ' ']) ++ msg ++ ['\n'] =
      layout_line stamp name file line msg := by
  simp [layout_line, layout_level]

theorem written_by_line (w : Writer) (f : FilePtr) (head msg : List Char) :
    written_by w [.write w f head, .write w f msg, .write w f ['\n'], .flush w f] =
      head ++ msg ++ ['\n'] := by
  simp [written_by]

theorem written_by_line_close (w : Writer) (f : FilePtr) (head msg : List Char) :
    written_by w ([.write w f head, .write w f msg, .write w f ['\n'], .flush w f] ++
        [.close w f]) = head ++ msg ++ ['\n'] := by
  simp [written_by]

/-- The console sink of the build without `LOG_USE_COLOR`, on an event with a valid
time and a level of the enumeration. -/
theorem stdout_callback_layout (nd : Bool) (ev : log_Event) (t : Tm) (name msg : List Char)
    (fs : FS) (htime : ev.time = some t) (hvalid : t.Valid)
    (hname : log_level_string ev.level = .ok name) (hmsg : vformat ev.fmt ev.ap = .ok msg)
    (hudata : ev.udata = .ptr stderr) :
    ∃ es, stdout_callback { LOG_USE_COLOR := false, NDEBUG := nd } ev fs = .ok (es, fs) ∧
      written_by .stdout_callback es =
        layout_line (layout_time t) name ev.file ev.line msg := by
  unfold log_level_string at hname
  have hargs : stdout_args { LOG_USE_COLOR := false, NDEBUG := nd } (layout_time t) ev =
      .ok [.str (layout_time t), .str name, .str ev.file, .int ev.line] := by
    simp [stdout_args, hname]
  have hfile : ev.udata.toFile = .ok (.handle stderr) := by
    rw [hudata]; rfl
  have hhead := vformat_line_head (layout_time t) name ev.file ev.line
  have hrun := write_line_handle .stdout_callback stderr "%s %-5s %s:%d: ".toList
    [.str (layout_time t), .str name, .str ev.file, .int ev.line] ev fs _ msg hhead hmsg
  have key : ∀ r, write_line .stdout_callback (.handle stderr) "%s %-5s %s:%d: ".toList
      [.str (layout_time t), .str name, .str ev.file, .int ev.line] ev fs = .ok r →
      stdout_callback { LOG_USE_COLOR := false, NDEBUG := nd } ev fs = .ok r := by
    intro r hr
    unfold stdout_callback
    simp only [htime, strftime_buf_time t hvalid, hargs, hfile]
    exact hr
  exact ⟨_, key _ hrun, by rw [written_by_line, layout_line_eq]⟩

/-- The sink function of `log_add_fp`, on an event with a valid time and a level of
the enumeration. -/
theorem file_callback_layout (ev : log_Event) (t : Tm) (name msg : List Char) (fs : FS)
    (p : Ptr) (htime : ev.time = some t) (hvalid : t.Valid)
    (hname : log_level_string ev.level = .ok name) (hmsg : vformat ev.fmt ev.ap = .ok msg)
    (hudata : ev.udata = .ptr p) (hp : p ≠ 0) :
    ∃ es, file_callback ev fs = .ok (es, fs) ∧
      written_by (.sink .file_callback) es =
        layout_line (layout_date_time t) name ev.file ev.line msg := by
  unfold log_level_string at hname
  have hfile : ev.udata.toFile = .ok (.handle p) := by
    rw [hudata]; simp [Target.toFile, hp]
  have hhead := vformat_line_head (layout_date_time t) name ev.file ev.line
  have hrun := write_line_handle (.sink .file_callback) p "%s %-5s %s:%d: ".toList
    [.str (layout_date_time t), .str name, .str ev.file, .int ev.line] ev fs _ msg hhead hmsg
  have key : ∀ r, write_line (.sink .file_callback) (.handle p) "%s %-5s %s:%d: ".toList
      [.str (layout_date_time t), .str name, .str ev.file, .int ev.line] ev fs = .ok r →
      file_callback ev fs = .ok r := by
    intro r hr
    unfold file_callback
    simp only [htime, strftime_buf_date_time t hvalid, hname, hfile]
    exact hr
  exact ⟨_, key _ hrun, by rw [written_by_line, layout_line_eq]⟩

/-- The sink function of `log_add_filePath`, on an event with a valid time and a level
of the enumeration, when the path can be opened: the line is appended to the file. -/
theorem file_bypath_callback_layout (ev : log_Event) (t : Tm) (name msg path : List Char)
    (fs : FS) (i : Nat) (buf : Buf) (htime : ev.time = some t) (hvalid : t.Valid)
    (hname : log_level_string ev.level = .ok name) (hmsg : vformat ev.fmt ev.ap = .ok msg)
    (hudata : ev.udata = .save_str i buf) (hpath : read_str buf = .ok path)
    (hopen : path ∉ fs.denied) :
    ∃ es fs1, file_bypath_callback ev fs = .ok (es, fs1) ∧
      written_by (.sink .file_bypath_callback) es =
        layout_line (layout_date_time t) name ev.file ev.line msg ∧
      fs1.read path = some ((fs.read path).getD [] ++
        layout_line (layout_date_time t) name ev.file ev.line msg) ∧
      fs1.denied = fs.denied := by
  unfold log_level_string at hname
  have hstr : ev.udata.toStr = .ok path := by
    rw [hudata]; exact hpath
  obtain ⟨fsa, hfopen, hold, hden⟩ := fopen_append_denied fs path hopen
  obtain ⟨fsb, hwl, hread, hden2⟩ := write_line_opened (.sink .file_bypath_callback) path
    "%s %-5s %s:%d: ".toList
    [.str (layout_date_time t), .str name, .str ev.file, .int ev.line] ev fsa _ msg
    (vformat_line_head _ _ _ _) hmsg
  have hseq := @Run.seq_eq_ok _ (fclose (.sink .file_bypath_callback) (.opened path)) _ _ fsb _
    [.close (.sink .file_bypath_callback) (.opened path)] hwl rfl
  have key : ∀ r, ((write_line (.sink .file_bypath_callback) (.opened path)
      "%s %-5s %s:%d: ".toList
      [.str (layout_date_time t), .str name, .str ev.file, .int ev.line] ev).seq
      (fclose (.sink .file_bypath_callback) (.opened path))) fsa = .ok r →
      file_bypath_callback ev fs = .ok r := by
    intro r hr
    unfold file_bypath_callback
    simp only [hstr, hfopen, htime, strftime_buf_date_time t hvalid, hname]
    exact hr
  refine ⟨_, fsb, key _ hseq, by rw [written_by_line_close, layout_line_eq], ?_,
    by rw [hden2, hden]⟩
  rw [hread, hold, ← layout_line_eq]
  simp [List.append_assoc]

theorem sample_stream_add :
    log_add_fp Logger.init 40 LOG_INFO = .ok (sample_stream_logger, 0) := by
  decide

theorem sample_stream_run :
    log_log plain_build (log_set_quiet sample_stream_logger true) LOG_WARN "x.c".toList 11
      "n=%d".toList [.int 5] sample_time sample_fs = .ok (sample_stream_trace, sample_fs) := by
  decide

/-- C5, as stated, fails for the sink of `log_add_fp`: the line it writes for the sample
call starts with the date, so it is not the layout `HH:MM:SS LEVEL file:line: message`. -/
theorem stream_sink_line_is_not_time_only :
    log_add_fp Logger.init 40 LOG_INFO = .ok (sample_stream_logger, 0) ∧
      log_log plain_build (log_set_quiet sample_stream_logger true) LOG_WARN "x.c".toList 11
        "n=%d".toList [.int 5] sample_time sample_fs = .ok (sample_stream_trace, sample_fs) ∧
      written_by (.sink .file_callback) sample_stream_trace =
        "2024-03-05 07:08:09 WARN  x.c:11: n=5\n".toList ∧
      written_by (.sink .file_callback) sample_stream_trace ≠
        layout_line (layout_time sample_time) "WARN".toList "x.c".toList 11 "n=5".toList :=
  ⟨sample_stream_add, sample_stream_run, by decide, by decide⟩

/-- C5, amended.  For every event with a level in 0..5 and a valid local time whose
message renders, the console sink (in the build without `LOG_USE_COLOR`) writes the
line `HH:MM:SS LEVEL file:line: message` and a newline, and both the sink of
`log_add_fp` (`file_callback`) and the sink of `log_add_filePath`
(`file_bypath_callback`, when its path can be opened) write the line
`YYYY-MM-DD HH:MM:SS LEVEL file:line: message` and a newline, the latter appending it
to the file.  `LEVEL` is the name `log_level_string` returns, one of the six names,
left-justified in five columns.  The call `log(WARN, "x.c", 11, "n=%d", 5)` gives the
console line `HH:MM:SS WARN  x.c:11: n=5`. -/
theorem sink_line_layouts (ev : log_Event) (t : Tm) (msg : List Char) (fs : FS)
    (hlevel : 0 ≤ ev.level ∧ ev.level ≤ 5) (htime : ev.time = some t) (hvalid : t.Valid)
    (hmsg : vformat ev.fmt ev.ap = .ok msg) :
    ∃ name, log_level_string ev.level = .ok name ∧ name ∈ level_strings ∧
      (layout_level name).length = 5 ∧
      (layout_time t).length = 8 ∧ (layout_date_time t).length = 19 ∧
      (∀ nd, ev.udata = .ptr stderr →
        ∃ es, stdout_callback { LOG_USE_COLOR := false, NDEBUG := nd } ev fs = .ok (es, fs) ∧
          written_by .stdout_callback es =
            layout_line (layout_time t) name ev.file ev.line msg) ∧
      (∀ p, ev.udata = .ptr p → p ≠ 0 →
        ∃ es, file_callback ev fs = .ok (es, fs) ∧
          written_by (.sink .file_callback) es =
            layout_line (layout_date_time t) name ev.file ev.line msg) ∧
      (∀ i buf path, ev.udata = .save_str i buf → read_str buf = .ok path →
        path ∉ fs.denied →
        ∃ es fs1, file_bypath_callback ev fs = .ok (es, fs1) ∧
          written_by (.sink .file_bypath_callback) es =
            layout_line (layout_date_time t) name ev.file ev.line msg ∧
          fs1.read path = some ((fs.read path).getD [] ++
            layout_line (layout_date_time t) name ev.file ev.line msg)) ∧
      (ev.level = LOG_WARN → ev.file = "x.c".toList → ev.line = 11 →
        ev.fmt = "n=%d".toList → ev.ap = [.int 5] →
        layout_line (layout_time t) name ev.file ev.line msg =
          layout_time t ++ " WARN  x.c:11: n=5\n".toList) := by
  obtain ⟨name, hname, hmem, hlen⟩ := level_name_of_range hlevel.1 hlevel.2
  refine ⟨name, hname, hmem, hlen, rfl, rfl, ?_, ?_, ?_, ?_⟩
  · intro nd hu
    exact stdout_callback_layout nd ev t name msg fs htime hvalid hname hmsg hu
  · intro p hu hp
    exact file_callback_layout ev t name msg fs p htime hvalid hname hmsg hu hp
  · intro i buf path hu hpath hopen
    obtain ⟨es, fs1, h1, h2, h3, -⟩ :=
      file_bypath_callback_layout ev t name msg path fs i buf htime hvalid hname hmsg hu
        hpath hopen
    exact ⟨es, fs1, h1, h2, h3⟩
  · intro h1 h2 h3 h4 h5
    rw [h1] at hname
    rw [h4, h5] at hmsg
    have hn : name = "WARN".toList := by
      have : log_level_string LOG_WARN = .ok "WARN".toList := by decide
      rw [this] at hname
      cases hname
      rfl
    have hm : msg = "n=5".toList := by
      have : vformat "n=%d".toList [.int 5] = .ok "n=5".toList := by decide
      rw [this] at hmsg
      cases hmsg
      rfl
    rw [hn, hm, h2, h3]
    simp [layout_line, layout_level]
    decide

theorem sink_line_layouts_witness :
    (0 ≤ (sample_event (.ptr stderr)).level ∧ (sample_event (.ptr stderr)).level ≤ 5) ∧
      (sample_event (.ptr stderr)).time = some sample_time ∧ sample_time.Valid ∧
      vformat (sample_event (.ptr stderr)).fmt (sample_event (.ptr stderr)).ap =
        .ok "n=5".toList ∧
      (∃ name, log_level_string (sample_event (.ptr stderr)).level = .ok name ∧
        name ∈ level_strings ∧ (layout_level name).length = 5 ∧
        (layout_time sample_time).length = 8 ∧ (layout_date_time sample_time).length = 19 ∧
        (∀ nd, (sample_event (.ptr stderr)).udata = .ptr stderr →
          ∃ es, stdout_callback { LOG_USE_COLOR := false, NDEBUG := nd }
              (sample_event (.ptr stderr)) sample_fs = .ok (es, sample_fs) ∧
            written_by .stdout_callback es =
              layout_line (layout_time sample_time) name (sample_event (.ptr stderr)).file
                (sample_event (.ptr stderr)).line "n=5".toList) ∧
        (∀ p, (sample_event (.ptr stderr)).udata = .ptr p → p ≠ 0 →
          ∃ es, file_callback (sample_event (.ptr stderr)) sample_fs = .ok (es, sample_fs) ∧
            written_by (.sink .file_callback) es =
              layout_line (layout_date_time sample_time) name
                (sample_event (.ptr stderr)).file (sample_event (.ptr stderr)).line
                "n=5".toList) ∧
        (∀ i buf path, (sample_event (.ptr stderr)).udata = .save_str i buf →
          read_str buf = .ok path → path ∉ sample_fs.denied →
          ∃ es fs1, file_bypath_callback (sample_event (.ptr stderr)) sample_fs =
              .ok (es, fs1) ∧
            written_by (.sink .file_bypath_callback) es =
              layout_line (layout_date_time sample_time) name
                (sample_event (.ptr stderr)).file (sample_event (.ptr stderr)).line
                "n=5".toList ∧
            fs1.read path = some ((sample_fs.read path).getD [] ++
              layout_line (layout_date_time sample_time) name
                (sample_event (.ptr stderr)).file (sample_event (.ptr stderr)).line
                "n=5".toList)) ∧
        ((sample_event (.ptr stderr)).level = LOG_WARN →
          (sample_event (.ptr stderr)).file = "x.c".toList →
          (sample_event (.ptr stderr)).line = 11 →
          (sample_event (.ptr stderr)).fmt = "n=%d".toList →
          (sample_event (.ptr stderr)).ap = [.int 5] →
          layout_line (layout_time sample_time) name (sample_event (.ptr stderr)).file
              (sample_event (.ptr stderr)).line "n=5".toList =
            layout_time sample_time ++ " WARN  x.c:11: n=5\n".toList)) ∧
      layout_time sample_time = "07:08:09".toList ∧
      layout_date_time sample_time = "2024-03-05 07:08:09".toList :=
  ⟨by decide, rfl, by decide, by decide,
    sink_line_layouts (sample_event (.ptr stderr)) sample_time "n=5".toList sample_fs
      (by decide) rfl (by decide) (by decide),
    by decide, by decide⟩

/-! ## C6: a path sink whose open fails -/

/-- The function `file_bypath_callback` hands the `NULL` result of a failed `fopen` to
`fprintf`: on a path that cannot be opened the call is undefined. -/
theorem file_bypath_callback_open_failure (ev : log_Event) (t : Tm) (name path : List Char)
    (fs : FS) (i : Nat) (buf : Buf) (htime : ev.time = some t)
    (hname : log_level_string ev.level = .ok name) (hudata : ev.udata = .save_str i buf)
    (hpath : read_str buf = .ok path) (hdenied : path ∈ fs.denied) :
    file_bypath_callback ev fs = .error .nullStream := by
  unfold log_level_string at hname
  have hstr : ev.udata.toStr = .ok path := by
    rw [hudata]; exact hpath
  have hfopen : fopen fs path .a_plus = (.null, fs) := by
    simp [fopen, hdenied]
  have hbuf : ∃ stamp, strftime_buf 64 "%Y-%m-%d %H:%M:%S".toList t = .ok stamp := by
    rw [strftime_buf, strftime_date_time]
    simp only
    split <;> exact ⟨_, rfl⟩
  obtain ⟨stamp, hstamp⟩ := hbuf
  unfold file_bypath_callback
  simp only [hstr, hfopen, htime, hstamp, hname]
  rfl

/-- C6, the code at the failing input.  `log_add_filePath("/no/dir/app.log", LOG_INFO,
false)` returns true; with a sink of the caller registered after it and a lock hook
installed, `log_log(LOG_WARN, ...)` then does not return normally: the failed open
is not skipped, the `NULL` stream reaches `fprintf`. -/
theorem path_sink_open_failure_is_not_skipped :
    log_add_filePath plain_build (log_set_lock Logger.init 7 9) "/no/dir/app.log".toList
        LOG_INFO false sample_fs =
        .ok ({ sample_path_logger with
          callbacks := Logger.init.callbacks.set 0 sample_path_sink }, true, sample_fs) ∧
      log_add_callback { sample_path_logger with
          callbacks := Logger.init.callbacks.set 0 sample_path_sink }
        (.user 1) 40 LOG_INFO none = .ok (sample_path_logger, 0) ∧
      log_log plain_build sample_path_logger LOG_WARN "x.c".toList 11 "n=%d".toList [.int 5]
        sample_time sample_fs = .error .nullStream := by
  refine ⟨by decide, by decide, by decide⟩

/-! ## C7: `log_add_filePath` -/

/-- C7, as stated, fails: with `create_file` on a path that cannot be opened the call
does not return false; it stops at the `assert`, and with `NDEBUG` it hands `NULL` to
`fclose`.  On a writable path of 256 characters it does not return true either: the
copy of the path runs past the end of `save_str`. -/
theorem log_add_filePath_unwritable_does_not_return_false :
    log_add_filePath plain_build Logger.init "/no/dir/app.log".toList LOG_INFO true sample_fs =
        .error .assertFailed ∧
      log_add_filePath { LOG_USE_COLOR := false, NDEBUG := true } Logger.init
        "/no/dir/app.log".toList LOG_INFO true sample_fs = .error .nullStream ∧
      log_add_filePath plain_build Logger.init (List.replicate 256 'a') LOG_INFO true sample_fs =
        .error .outOfBounds := by
  refine ⟨by decide, by decide, by decide⟩

/-- C7, amended.  With `create_file` on a path that cannot be opened, the build with
assertions stops at the `assert` (the call does not return, and so registers nothing).
With `create_file` on a path that can be opened and has at most 255 characters, and a
table that is not full, the call returns true, the file exists and is empty right
afterwards, and the first free slot holds the path sink with the path as its stored
string.  Without `create_file` nothing is opened (the file system is untouched) and
the result is exactly whether `log_add_callback` returned 0. -/
theorem log_add_filePath_behaviour (b : Build) (L : Logger) (path : List Char) (level : Int)
    (fs : FS) :
    (path ∈ fs.denied → b.NDEBUG = false →
        log_add_filePath b L path level true fs = .error .assertFailed) ∧
      (path ∉ fs.denied → strlen path ≤ 255 → L.WellSized →
        (∃ i, i < MAX_CALLBACKS ∧ ¬ L.occupied i) →
        ∃ L1 fs1 i, log_add_filePath b L path level true fs = .ok (L1, true, fs1) ∧
          fs1.read path = some [] ∧ fs1.denied = fs.denied ∧
          i < MAX_CALLBACKS ∧ ¬ L.occupied i ∧ (∀ j, j < i → L.occupied j) ∧
          (L1.slot i).fn = .file_bypath_callback ∧ (L1.slot i).udata = 0 ∧
          (L1.slot i).level = level ∧ read_str (L1.slot i).save_str = .ok (c_str path) ∧
          (∀ j, j ≠ i → L1.slot j = L.slot j)) ∧
      log_add_filePath b L path level false fs =
        (log_add_callback L .file_bypath_callback 0 level (some path)).map
          (fun r => (r.1, decide (r.2 = 0), fs)) := by
  refine ⟨?_, ?_, ?_⟩
  · intro hdenied hnd
    simp [log_add_filePath, fopen, hdenied, hnd]
  · intro hopen hlen hsize hfree
    obtain ⟨i0, hi0, hfree0⟩ := hfree
    have hnull0 : (L.slot i0).fn = .null := by
      by_contra hne
      exact hfree0 hne
    obtain ⟨buf, hcb, hread⟩ := make_callback_fits .file_bypath_callback 0 level path
      (by unfold SAVE_STR_SIZE; omega)
    rcases log_add_callback_spec L .file_bypath_callback 0 level (some path) with
      ⟨hall, -⟩ | ⟨i, hi, hnull, hbefore, hres⟩
    · exact absurd hnull0 (hall i0 hi0)
    · rw [hcb] at hres
      have hil : i < L.callbacks.length := by rw [hsize]; exact hi
      have hself := slot_set_self L i (Callback.mk .file_bypath_callback 0 level buf) hil
      refine ⟨Logger.mk L.udata L.lock L.level L.quiet
          (L.callbacks.set i (Callback.mk .file_bypath_callback 0 level buf)),
        fs.put path [], i, ?_, FS.read_put fs path [], rfl, hi, fun h => h hnull,
        hbefore, ?_, ?_, ?_, ?_, fun j hj => slot_set_ne L i j _ (Ne.symm hj)⟩
      · simp only [log_add_filePath, fopen, hopen, if_false, if_true]
        simp [hres, Except.map]
      · rw [hself]
      · rw [hself]
      · rw [hself]
      · rw [hself]
        exact hread
  · simp only [log_add_filePath]
    cases log_add_callback L .file_bypath_callback 0 level (some path) with
    | error e => rfl
    | ok r => rfl

theorem log_add_filePath_behaviour_witness :
    ("/no/dir/app.log".toList ∈ sample_fs.denied ∧ plain_build.NDEBUG = false ∧
        log_add_filePath plain_build Logger.init "/no/dir/app.log".toList LOG_INFO true
          sample_fs = .error .assertFailed) ∧
      ("/tmp/app.log".toList ∉ sample_fs.denied ∧ strlen "/tmp/app.log".toList ≤ 255 ∧
        Logger.init.WellSized ∧ (∃ i, i < MAX_CALLBACKS ∧ ¬ Logger.init.occupied i) ∧
        ∃ L1 fs1 i, log_add_filePath plain_build Logger.init "/tmp/app.log".toList LOG_INFO
            true sample_fs = .ok (L1, true, fs1) ∧
          fs1.read "/tmp/app.log".toList = some [] ∧ fs1.denied = sample_fs.denied ∧
          i < MAX_CALLBACKS ∧ ¬ Logger.init.occupied i ∧ (∀ j, j < i → Logger.init.occupied j) ∧
          (L1.slot i).fn = .file_bypath_callback ∧ (L1.slot i).udata = 0 ∧
          (L1.slot i).level = LOG_INFO ∧
          read_str (L1.slot i).save_str = .ok (c_str "/tmp/app.log".toList) ∧
          (∀ j, j ≠ i → L1.slot j = Logger.init.slot j)) :=
  ⟨⟨by decide, rfl,
      (log_add_filePath_behaviour plain_build Logger.init "/no/dir/app.log".toList LOG_INFO
        sample_fs).1 (by decide) rfl⟩,
    ⟨by decide, by decide, wellSized_init, ⟨0, by decide, by decide⟩,
      (log_add_filePath_behaviour plain_build Logger.init "/tmp/app.log".toList LOG_INFO
        sample_fs).2.1 (by decide) (by decide) wellSized_init ⟨0, by decide, by decide⟩⟩⟩

/-! ## Further properties -/

/-- Logging twice through a path sink whose path can be opened appends two lines to
the file: the second call does not truncate what the first wrote. -/
theorem path_sink_appends_each_line (ev1 ev2 : log_Event) (t1 t2 : Tm)
    (name1 name2 msg1 msg2 path : List Char) (fs : FS) (i : Nat) (buf : Buf)
    (htime1 : ev1.time = some t1) (hvalid1 : t1.Valid)
    (hname1 : log_level_string ev1.level = .ok name1)
    (hmsg1 : vformat ev1.fmt ev1.ap = .ok msg1) (hudata1 : ev1.udata = .save_str i buf)
    (htime2 : ev2.time = some t2) (hvalid2 : t2.Valid)
    (hname2 : log_level_string ev2.level = .ok name2)
    (hmsg2 : vformat ev2.fmt ev2.ap = .ok msg2) (hudata2 : ev2.udata = .save_str i buf)
    (hpath : read_str buf = .ok path) (hopen : path ∉ fs.denied) :
    ∃ es1 fs1 es2 fs2, file_bypath_callback ev1 fs = .ok (es1, fs1) ∧
      file_bypath_callback ev2 fs1 = .ok (es2, fs2) ∧
      fs2.read path = some ((fs.read path).getD [] ++
        layout_line (layout_date_time t1) name1 ev1.file ev1.line msg1 ++
        layout_line (layout_date_time t2) name2 ev2.file ev2.line msg2) := by
  obtain ⟨es1, fs1, h1, -, hread1, hden1⟩ :=
    file_bypath_callback_layout ev1 t1 name1 msg1 path fs i buf htime1 hvalid1 hname1 hmsg1
      hudata1 hpath hopen
  obtain ⟨es2, fs2, h2, -, hread2, -⟩ :=
    file_bypath_callback_layout ev2 t2 name2 msg2 path fs1 i buf htime2 hvalid2 hname2 hmsg2
      hudata2 hpath (by rw [hden1]; exact hopen)
  refine ⟨es1, fs1, es2, fs2, h1, h2, ?_⟩
  rw [hread2, hread1]
  simp

theorem path_sink_appends_each_line_witness :
    (sample_event (.save_str 0 sample_tmp_sink.save_str)).time = some sample_time ∧
      sample_time.Valid ∧
      log_level_string (sample_event (.save_str 0 sample_tmp_sink.save_str)).level =
        .ok "WARN".toList ∧
      vformat (sample_event (.save_str 0 sample_tmp_sink.save_str)).fmt
        (sample_event (.save_str 0 sample_tmp_sink.save_str)).ap = .ok "n=5".toList ∧
      read_str sample_tmp_sink.save_str = .ok "/tmp/app.log".toList ∧
      "/tmp/app.log".toList ∉ sample_fs.denied ∧
      ∃ es1 fs1 es2 fs2,
        file_bypath_callback (sample_event (.save_str 0 sample_tmp_sink.save_str)) sample_fs =
          .ok (es1, fs1) ∧
        file_bypath_callback (sample_event (.save_str 0 sample_tmp_sink.save_str)) fs1 =
          .ok (es2, fs2) ∧
        fs2.read "/tmp/app.log".toList = some ((sample_fs.read "/tmp/app.log".toList).getD [] ++
          layout_line (layout_date_time sample_time) "WARN".toList
            (sample_event (.save_str 0 sample_tmp_sink.save_str)).file
            (sample_event (.save_str 0 sample_tmp_sink.save_str)).line "n=5".toList ++
          layout_line (layout_date_time sample_time) "WARN".toList
            (sample_event (.save_str 0 sample_tmp_sink.save_str)).file
            (sample_event (.save_str 0 sample_tmp_sink.save_str)).line "n=5".toList) :=
  ⟨rfl, by decide, by decide, by decide, by decide, by decide,
    path_sink_appends_each_line (sample_event (.save_str 0 sample_tmp_sink.save_str))
      (sample_event (.save_str 0 sample_tmp_sink.save_str)) sample_time sample_time
      "WARN".toList "WARN".toList "n=5".toList "n=5".toList "/tmp/app.log".toList sample_fs 0
      sample_tmp_sink.save_str rfl (by decide) (by decide) (by decide) rfl rfl (by decide)
      (by decide) (by decide) rfl (by decide) (by decide)⟩

theorem sample_ready :
    ∀ i, i < MAX_CALLBACKS → sample_logger.occupied i →
      sink_ready (sample_logger.slot i) sample_fs := by
  intro i hi hocc
  have h2 : i < 2 := by
    by_contra hge
    have hnull : (sample_logger.slot i).fn = .null := by
      have hz : sample_logger.slot i = Callback.zero := by
        unfold MAX_CALLBACKS at hi
        interval_cases i <;> first | omega | rfl
      rw [hz]; rfl
    exact hocc hnull
  interval_cases i <;> trivial

theorem log_log_returns_witness :
    (0 ≤ LOG_WARN ∧ LOG_WARN ≤ 5) ∧
      vformat "n=%d".toList [.int 5] = .ok "n=5".toList ∧
      (∀ i, i < MAX_CALLBACKS → sample_logger.occupied i →
        sink_ready (sample_logger.slot i) sample_fs) ∧
      ∃ tr fs2, log_log plain_build sample_logger LOG_WARN "x.c".toList 11 "n=%d".toList
          [.int 5] sample_time sample_fs = .ok (tr, fs2) ∧ fs2.denied = sample_fs.denied :=
  ⟨by decide, by decide, sample_ready,
    log_log_returns plain_build sample_logger LOG_WARN "x.c".toList 11 "n=%d".toList [.int 5]
      sample_time sample_fs "n=5".toList (by decide) (by decide) (by decide) sample_ready⟩

end LogC
